import Mathlib

/-!
Verification of the streaming chat protocol handler of `frontend/src/pages/Index.tsx`
(the `useChatState` hook: `processChat`, `addMessage`, `regenerateMessage`, `clearChat`).

The embedding works over `JStr := List Char`, a shallow model of JavaScript strings
(the protocol is ASCII, so UTF-16 subtleties do not arise).  `JSON.parse` is embedded
as a total recursive-descent parser over the full JSON grammar that reports the error
classes the source code branches on (the source inspects `error.message` for the
substrings `column`, `unterminated string` and `unexpected character`; these are the
SpiderMonkey-style diagnostics `JSON.parse: unterminated string literal at line 1
column C` and `JSON.parse: unexpected character at line 1 column C`, with `C` the
1-based column of the offence).  Numbers are kept as their lexemes: no claim observes
numeric values, only frame shapes and string fields.
-/

/-- JavaScript strings, modelled as lists of characters. -/
abbrev JStr := List Char

/-- Coerce a Lean string literal into the model. -/
def jstr (s : String) : JStr := s.data

/-- Whitespace set shared by JSON (`space`, `tab`, `newline`, `carriage return`) and,
on the ASCII fragment the protocol uses, by `String.prototype.trim` (the JS trim set
additionally contains `\v`, `\f` and Unicode spaces, which never occur in the frames
modelled here). -/
def isJsWS (c : Char) : Bool := c == ' ' || c == '\t' || c == '\n' || c == '\r'

/-- Strip leading whitespace. -/
def lstripWs (s : JStr) : JStr := s.dropWhile isJsWS

/-- Strip trailing whitespace. -/
def rstripWs (s : JStr) : JStr := (s.reverse.dropWhile isJsWS).reverse

/-- Model of `String.prototype.trim` on the ASCII fragment. -/
def trimWs (s : JStr) : JStr := lstripWs (rstripWs s)

/-- Model of `chunk.split('\n')` (Index.tsx line 1411): split on every newline,
never returning an empty list (splitting the empty string yields `[[]]`, as in JS). -/
def splitNl : JStr → List JStr
  | [] => [[]]
  | c :: rest =>
    if c == '\n' then [] :: splitNl rest
    else
      match splitNl rest with
      | s :: ss => (c :: s) :: ss
      | [] => [[c]]

/-- Parsed JSON values.  Numbers keep their source lexeme: the handler never looks at
a numeric value, only at frame shapes and string-valued fields. -/
inductive Json where
  | null : Json
  | bool (b : Bool) : Json
  | num (lexeme : JStr) : Json
  | str (s : JStr) : Json
  | arr (elems : List Json) : Json
  | obj (fields : List (JStr × Json)) : Json

/-- Error classes of the engine's `JSON.parse` diagnostics, as far as the source code
distinguishes them.  `unterminatedString` covers `unterminated string literal`,
`unexpectedChar` covers `unexpected character`; every other diagnostic (`unexpected
end of data`, `expected ',' or '}'`, `unexpected non-whitespace character after JSON
data`, bad escapes, bad control characters, unexpected keywords, …) contains neither
of the two substrings the recovery code tests for, so the distinctions inside `other`
are behaviourally irrelevant and are collapsed. -/
inductive JErrKind where
  | unterminatedString : JErrKind
  | unexpectedChar : JErrKind
  | endOfData : JErrKind
  | trailingChars : JErrKind
  | other : JErrKind
  deriving DecidableEq

/-- A parse error: its class and the 1-based column the engine reports. -/
structure JErr where
  kind : JErrKind
  col : Nat
  deriving DecidableEq

/-- Skip whitespace, tracking the 1-based column of the next character. -/
def skipWS : JStr → Nat → JStr × Nat
  | [], p => ([], p)
  | c :: r, p => if isJsWS c then skipWS r (p + 1) else (c :: r, p)

/-- Single-character escapes of JSON string literals. -/
def unescape (e : Char) : Option Char :=
  if e == 'n' then some '\n'
  else if e == 't' then some '\t'
  else if e == 'r' then some '\r'
  else if e == 'b' then some (Char.ofNat 8)
  else if e == 'f' then some (Char.ofNat 12)
  else if e == '"' || e == '\\' || e == '/' then some e
  else none

/-- Hexadecimal digit value. -/
def hexVal (c : Char) : Option Nat :=
  let n := c.toNat
  if 48 ≤ n && n ≤ 57 then some (n - 48)
  else if 97 ≤ n && n ≤ 102 then some (n - 87)
  else if 65 ≤ n && n ≤ 70 then some (n - 55)
  else none

/-- Decode a `\uXXXX` escape. -/
def hex4 (a b c d : Char) : Option Nat :=
  match hexVal a, hexVal b, hexVal c, hexVal d with
  | some va, some vb, some vc, some vd => some (((va * 16 + vb) * 16 + vc) * 16 + vd)
  | _, _, _, _ => none

/-- Parse the body of a string literal after its opening quote.  `q` is the 1-based
column of the opening quote (the column SpiderMonkey reports for an unterminated
string literal); `p` is the column of the next character.  Returns the decoded
content, the rest of the input and the next column. -/
def parseStringBody (q : Nat) : JStr → Nat → Except JErr (JStr × JStr × Nat)
  | [], _ => .error ⟨.unterminatedString, q⟩
  | '"' :: r, p => .ok ([], r, p + 1)
  | '\\' :: r, p =>
    match r with
    | [] => .error ⟨.unterminatedString, q⟩
    | 'u' :: r' =>
      match r' with
      | a :: b :: c :: d :: r'' =>
        match hex4 a b c d with
        | some n =>
          match parseStringBody q r'' (p + 6) with
          | .ok (s, rest, p') => .ok (Char.ofNat n :: s, rest, p')
          | .error e => .error e
        | none => .error ⟨.other, p + 2⟩
      | _ => .error ⟨.unterminatedString, q⟩
    | e :: r' =>
      match unescape e with
      | some ch =>
        match parseStringBody q r' (p + 2) with
        | .ok (s, rest, p') => .ok (ch :: s, rest, p')
        | .error e' => .error e'
      | none => .error ⟨.other, p + 1⟩
  | c :: r, p =>
    if c.toNat < 32 then .error ⟨.other, p⟩
    else
      match parseStringBody q r (p + 1) with
      | .ok (s, rest, p') => .ok (c :: s, rest, p')
      | .error e => .error e

/-- Decimal digit test. -/
def isDigitCh (c : Char) : Bool := '0' ≤ c && c ≤ '9'

/-- Collect a run of decimal digits, tracking the column. -/
def takeDigits : JStr → Nat → JStr × JStr × Nat
  | c :: r, p =>
    if isDigitCh c then
      match takeDigits r (p + 1) with
      | (ds, rest, p') => (c :: ds, rest, p')
    else ([], c :: r, p)
  | [], p => ([], [], p)

/-- Lex the fraction-and-exponent tail of a JSON number, returning the tail lexeme. -/
def lexNumTail (s : JStr) (p : Nat) : Except JErr (JStr × JStr × Nat) :=
  let (frac, s1, p1) :=
    match s with
    | '.' :: r =>
      match takeDigits r (p + 1) with
      | (ds, rest, p') => ('.' :: ds, rest, p')
    | _ => ([], s, p)
  if frac == ['.'] then .error ⟨.other, p1⟩
  else
    match s1 with
    | 'e' :: r | 'E' :: r =>
      let (sgn, r1, p2) :=
        match r with
        | '+' :: r' => (['+'], r', p1 + 2)
        | '-' :: r' => (['-'], r', p1 + 2)
        | _ => (([] : JStr), r, p1 + 1)
      match takeDigits r1 p2 with
      | ([], _, p') => .error ⟨.other, p'⟩
      | (ds, rest, p') => .ok (frac ++ 'e' :: sgn ++ ds, rest, p')
    | _ => .ok (frac, s1, p1)

/-- Lex a JSON number (grammar `-? (0 | [1-9][0-9]*) frac? exp?`), returning its
lexeme.  The caller guarantees the input starts with a digit or `-`. -/
def lexNumber (s : JStr) (p : Nat) : Except JErr (JStr × JStr × Nat) :=
  let (neg, s1, p1) :=
    match s with
    | '-' :: r => (['-'], r, p + 1)
    | _ => (([] : JStr), s, p)
  match s1 with
  | [] => .error ⟨.endOfData, p1⟩
  | '0' :: r =>
    match lexNumTail r (p1 + 1) with
    | .ok (tail, rest, p') => .ok (neg ++ '0' :: tail, rest, p')
    | .error e => .error e
  | c :: r =>
    if isDigitCh c then
      match takeDigits r (p1 + 1) with
      | (ds, s2, p2) =>
        match lexNumTail s2 p2 with
        | .ok (tail, rest, p') => .ok (neg ++ c :: ds ++ tail, rest, p')
        | .error e => .error e
    else .error ⟨.unexpectedChar, p1⟩

/-- Parse positions of the JSON grammar: a value, an object body right after `{`
(`members0` allows the immediate `}`), the member list proper, an array body right
after `[`, and the element list proper.  A single mode-indexed function instead of
five mutually recursive ones keeps the recursion structural on `fuel`, so that the
kernel can evaluate the parser inside `decide`. -/
inductive PMode where
  | value : PMode
  | members0 : PMode
  | members : PMode
  | elems0 : PMode
  | elems : PMode

/-- Results of the three parse positions. -/
inductive PRes where
  | val (v : Json) : PRes
  | fields (fs : List (JStr × Json)) : PRes
  | items (es : List Json) : PRes

/-- The recursive-descent core.  `fuel` only bounds the recursion depth; every
recursive call consumes input, so the allowance in `Json.parseTop` never runs out.
The `.error ⟨.other, 0⟩` arms for a result of the wrong shape are unreachable:
each mode only ever returns its own constructor. -/
def parseRun : Nat → PMode → JStr → Nat → Except JErr (PRes × JStr × Nat)
  | 0, _, _, p => .error ⟨.other, p⟩
  | fuel + 1, .value, s, p =>
    (match skipWS s p with
     | (s', p') =>
       match s' with
       | [] => .error ⟨.endOfData, p'⟩
       | '{' :: r =>
         (match parseRun fuel .members0 r (p' + 1) with
          | .ok (.fields fs, rest, p'') => .ok (.val (.obj fs), rest, p'')
          | .ok _ => .error ⟨.other, 0⟩
          | .error e => .error e)
       | '[' :: r =>
         (match parseRun fuel .elems0 r (p' + 1) with
          | .ok (.items es, rest, p'') => .ok (.val (.arr es), rest, p'')
          | .ok _ => .error ⟨.other, 0⟩
          | .error e => .error e)
       | '"' :: r =>
         (match parseStringBody p' r (p' + 1) with
          | .ok (cs, rest, p'') => .ok (.val (.str cs), rest, p'')
          | .error e => .error e)
       | 't' :: r =>
         (match r with
          | 'r' :: 'u' :: 'e' :: rest => .ok (.val (.bool true), rest, p' + 4)
          | _ => .error ⟨.other, p'⟩)
       | 'f' :: r =>
         (match r with
          | 'a' :: 'l' :: 's' :: 'e' :: rest => .ok (.val (.bool false), rest, p' + 5)
          | _ => .error ⟨.other, p'⟩)
       | 'n' :: r =>
         (match r with
          | 'u' :: 'l' :: 'l' :: rest => .ok (.val .null, rest, p' + 4)
          | _ => .error ⟨.other, p'⟩)
       | c :: _ =>
         if isDigitCh c || c == '-' then
           match lexNumber s' p' with
           | .ok (lex, rest, p'') => .ok (.val (.num lex), rest, p'')
           | .error e => .error e
         else .error ⟨.unexpectedChar, p'⟩)
  | fuel + 1, .members0, s, p =>
    (match skipWS s p with
     | (s', p') =>
       match s' with
       | '}' :: rest => .ok (.fields [], rest, p' + 1)
       | _ => parseRun fuel .members s' p')
  | fuel + 1, .members, s, p =>
    (match skipWS s p with
     | (s', p') =>
       match s' with
       | [] => .error ⟨.endOfData, p'⟩
       | '"' :: r =>
         (match parseStringBody p' r (p' + 1) with
          | .error e => .error e
          | .ok (key, r1, p1) =>
            match skipWS r1 p1 with
            | (r2, p2) =>
              match r2 with
              | ':' :: r3 =>
                (match parseRun fuel .value r3 (p2 + 1) with
                 | .error e => .error e
                 | .ok (.val v, r4, p4) =>
                   (match skipWS r4 p4 with
                    | (r5, p5) =>
                      match r5 with
                      | ',' :: r6 =>
                        (match parseRun fuel .members r6 (p5 + 1) with
                         | .ok (.fields ms, rest, p6) => .ok (.fields ((key, v) :: ms), rest, p6)
                         | .ok _ => .error ⟨.other, 0⟩
                         | .error e => .error e)
                      | '}' :: r6 => .ok (.fields [(key, v)], r6, p5 + 1)
                      | [] => .error ⟨.endOfData, p5⟩
                      | _ => .error ⟨.other, p5⟩)
                 | .ok _ => .error ⟨.other, 0⟩)
              | [] => .error ⟨.endOfData, p2⟩
              | _ => .error ⟨.other, p2⟩)
       | _ => .error ⟨.other, p'⟩)
  | fuel + 1, .elems0, s, p =>
    (match skipWS s p with
     | (s', p') =>
       match s' with
       | ']' :: rest => .ok (.items [], rest, p' + 1)
       | _ => parseRun fuel .elems s' p')
  | fuel + 1, .elems, s, p =>
    (match parseRun fuel .value s p with
     | .error e => .error e
     | .ok (.val v, r, p1) =>
       (match skipWS r p1 with
        | (r2, p2) =>
          match r2 with
          | ',' :: r3 =>
            (match parseRun fuel .elems r3 (p2 + 1) with
             | .ok (.items vs, rest, p3) => .ok (.items (v :: vs), rest, p3)
             | .ok _ => .error ⟨.other, 0⟩
             | .error e => .error e)
          | ']' :: r3 => .ok (.items [v], r3, p2 + 1)
          | [] => .error ⟨.endOfData, p2⟩
          | _ => .error ⟨.other, p2⟩)
     | .ok _ => .error ⟨.other, 0⟩)

/-- Parse one JSON value (the `.value` mode of `parseRun`). -/
def parseValue (fuel : Nat) (s : JStr) (p : Nat) : Except JErr (Json × JStr × Nat) :=
  match parseRun fuel .value s p with
  | .ok (.val v, rest, p') => .ok (v, rest, p')
  | .ok _ => .error ⟨.other, 0⟩
  | .error e => .error e

/-- Top-level parse of an already-trimmed text: one value, then nothing but
whitespace (`unexpected non-whitespace character after JSON data` otherwise — a
message that contains neither of the substrings the recovery code looks for). -/
def Json.parseTop (s : JStr) : Except JErr Json :=
  match parseValue (3 * s.length + 8) s 1 with
  | .error e => .error e
  | .ok (v, rest, p) =>
    match skipWS rest p with
    | ([], _) => .ok v
    | (_, p') => .error ⟨.trailingChars, p'⟩

/-- Model of `JSON.parse`.  `JSON.parse` ignores leading and trailing whitespace, so
the input is normalised by `trimWs` up front; this is behaviour-preserving because
the modelled trim set equals the JSON whitespace set, and the reported columns agree
with the engine's at every use site because every line the handler parses is already
trimmed (`line = lines[i].trim()` runs before every parse). -/
def Json.parse (s : JStr) : Except JErr Json := Json.parseTop (trimWs s)

/-- Success test for a parse result. -/
def isOkB (r : Except JErr Json) : Bool :=
  match r with
  | .ok _ => true
  | .error _ => false

/-- Field access `data.f` on a parsed JSON value: defined on objects (`undefined`,
i.e. `none`, elsewhere).  On duplicate keys `JSON.parse` keeps the last occurrence,
hence the left fold. -/
def jsGet (d : Json) (k : JStr) : Option Json :=
  match d with
  | .obj fs => fs.foldl (fun acc kv => if kv.1 == k then some kv.2 else acc) none
  | _ => none

/-- Test `data.type === t` for a string literal `t` (strict equality with a string
is false for a missing or non-string `type`). -/
def jsTypeIs (d : Json) (t : JStr) : Bool :=
  match jsGet d (jstr "type") with
  | some (.str u) => u == t
  | _ => false

/-- Zero test on a number lexeme (`0`, `-0`, `0.00`, `0e9`, … are zero). -/
def numLexIsZero (lex : JStr) : Bool :=
  (lex.takeWhile (fun c => !(c == 'e' || c == 'E'))).all
    (fun c => c == '-' || c == '+' || c == '0' || c == '.')

/-- JavaScript truthiness of a JSON value. -/
def jsTruthy (j : Json) : Bool :=
  match j with
  | .str s => !s.isEmpty
  | .num lex => !numLexIsZero lex
  | .bool b => b
  | .null => false
  | .arr _ => true
  | .obj _ => true

/-- Truthiness of a possibly-`undefined` value (`undefined` is falsy). -/
def jsTruthyOpt (o : Option Json) : Bool :=
  match o with
  | some j => jsTruthy j
  | none => false

/-- One collected processing step (Index.tsx 1221-1225, 1456): `message` mirrors
`data.message` (possibly `undefined`), `collapsed` is set to `false` on creation,
`completed` is absent until the final step is marked (line 1564). -/
structure PStep where
  message : Option Json
  collapsed : Option Bool
  completed : Option Bool

/-- State of the stream-reading loop of `processChat` (Index.tsx 1389-1549).
`frames` is an observation trace: every value that reaches the dispatch at line
1450 (`const data = JSON.parse(line)` succeeding), in order.  `processingSteps`
mirrors the `state.processingSteps` updates issued while streaming;
`currentSession` mirrors `state.currentSession`. -/
structure LoopState where
  buffer : JStr
  isComplete : Bool
  responseData : Option Json
  collectedSteps : List PStep
  processingSteps : List PStep
  currentSession : Option Json
  frames : List Json

/-- Loop state at the top of `processChat`'s stream loop. -/
def initLoop (sess0 : Option Json) : LoopState :=
  { buffer := [], isComplete := false, responseData := none, collectedSteps := [],
    processingSteps := [], currentSession := sess0, frames := [] }

/-- Dispatch on a successfully parsed frame (Index.tsx 1450-1480).  `sess0` is the
value of `state.currentSession` captured by `processChat`'s closure — the session at
the start of the turn — which the guard at line 1474 reads, while the update writes
through `setState`. -/
def dispatch (sess0 : Option Json) (st : LoopState) (data : Json) : LoopState :=
  let st := { st with frames := st.frames ++ [data] }
  if jsTypeIs data (jstr "processing_step") then
    let step : PStep := { message := jsGet data (jstr "message"), collapsed := some false,
                          completed := none }
    { st with collectedSteps := st.collectedSteps ++ [step],
              processingSteps := st.processingSteps ++ [step] }
  else if jsTypeIs data (jstr "complete") then
    let st := { st with responseData := some data, isComplete := true }
    if jsTruthyOpt (jsGet data (jstr "session_id")) && !jsTruthyOpt sess0 then
      { st with currentSession := jsGet data (jstr "session_id") }
    else st
  else st

/-- Model of `sanitizeLine` (Index.tsx 1432-1443): if the line does not start with
the object-open character, restart it at the first such character, if any. -/
def sanitizeLine (rawLine : JStr) : JStr :=
  if rawLine.head? != some '{' then
    match rawLine.findIdx? (fun c => c == '{') with
    | some j => rawLine.drop j
    | none => rawLine
  else rawLine

/-- Every `JSON.parse` SyntaxError message carries `line 1 column C`, so the guard
`error.message.includes('column')` at line 1494 always holds. -/
def errHasColumn (_ : JErr) : Bool := true

/-- Model of the in-catch repair (Index.tsx 1494-1521): with the reported column in
hand, an `unterminated string` appends one closing quote; an `unexpected character`
with an interior column excises the two characters at JS indices `columnPos - 1`
and `columnPos`; anything else applies no fix. -/
def tryFix (line : JStr) (err : JErr) : Option JStr :=
  if errHasColumn err then
    let columnPos := err.col
    if err.kind == .unterminatedString then some (line ++ ['"'])
    else if err.kind == .unexpectedChar then
      if columnPos > 0 && columnPos < line.length then
        some (line.take (columnPos - 1) ++ line.drop (columnPos + 1))
      else none
    else none
  else none

/-- One iteration of the line loop (Index.tsx 1426-1545) on `lines[i]`, with
`isLast` meaning `i === lines.length - 1`.  A successful repair substitutes the
fixed line and reprocesses it (`lines[i] = fixedLine; i--; continue`), which the
fuel argument bounds; the substituted line parses, so fuel 2 is never exhausted. -/
def forBody (sess0 : Option Json) : Nat → LoopState → JStr → Bool → LoopState
  | 0, st, _, _ => st
  | fuel + 1, st, raw, isLast =>
    let line := trimWs raw
    if line.isEmpty then st
    else
      let line := sanitizeLine line
      match Json.parse line with
      | .ok data => dispatch sess0 st data
      | .error err =>
        if isLast then { st with buffer := line }
        else
          match tryFix line err with
          | some fixedLine =>
            (match Json.parse fixedLine with
             | .ok data =>
               if jsTypeIs data (jstr "processing_step") || jsTypeIs data (jstr "complete") then
                 forBody sess0 fuel st fixedLine isLast
               else st
             | .error _ => st)
          | none => st

/-- The `for` loop over the lines of one chunk: every line but the final one is
processed with `isLast = false`. -/
def runLines (sess0 : Option Json) (st : LoopState) : List JStr → LoopState
  | [] => st
  | [l] => forBody sess0 2 st l true
  | l :: l2 :: rest => runLines sess0 (forBody sess0 2 st l false) (l2 :: rest)

/-- Processing of one decoded chunk (Index.tsx 1403-1548): split on newlines,
prepend the pending buffer to the first fragment, clear the buffer, run the line
loop (which re-buffers a failing final fragment). -/
def processChunk (sess0 : Option Json) (st : LoopState) (chunk : JStr) : LoopState :=
  let lines := splitNl chunk
  let lines :=
    if st.buffer.length > 0 then
      match lines with
      | l0 :: rest => (st.buffer ++ l0) :: rest
      | [] => [st.buffer]
    else lines
  runLines sess0 { st with buffer := [] } lines

/-- The `while (!isComplete)` read loop (Index.tsx 1395-1549): before each read the
completion flag is checked; a `done` read breaks out, leaving any later data unread
and the pending buffer untouched. -/
def processStream (sess0 : Option Json) (st : LoopState) : List JStr → LoopState
  | [] => st
  | c :: cs => if st.isComplete then st else processStream sess0 (processChunk sess0 st c) cs

/-- The three repair strategies of the recovery engine, in their fixed order. -/
inductive Strategy where
  | prefixTrim : Strategy
  | closeQuote : Strategy
  | excise : Strategy
  deriving DecidableEq

/-- Instrumented replay of `forBody` on a non-final line: the dispatched value (if
any) together with the list of repair strategies attempted, in order.  `prefixTrim`
is attempted when the trimmed line does not start with the object-open character
(line 1434); `closeQuote` when the parse error is an unterminated string (1508);
`excise` when it is an unexpected character (1513). -/
def lineScan : Nat → JStr → Option Json × List Strategy
  | 0, _ => (none, [])
  | fuel + 1, raw =>
    let t := trimWs raw
    if t.isEmpty then (none, [])
    else
      let tr0 : List Strategy := if t.head? != some '{' then [.prefixTrim] else []
      let line := sanitizeLine t
      match Json.parse line with
      | .ok d => (some d, tr0)
      | .error err =>
        let tr1 : List Strategy :=
          if errHasColumn err then
            if err.kind == .unterminatedString then [.closeQuote]
            else if err.kind == .unexpectedChar then [.excise]
            else []
          else []
        match tryFix line err with
        | some fixedLine =>
          (match Json.parse fixedLine with
           | .ok d =>
             if jsTypeIs d (jstr "processing_step") || jsTypeIs d (jstr "complete") then
               match lineScan fuel fixedLine with
               | (res, tr') => (res, tr0 ++ tr1 ++ tr')
             else (none, tr0 ++ tr1)
           | .error _ => (none, tr0 ++ tr1))
        | none => (none, tr0 ++ tr1)

/-- The value a non-final line contributes to the turn, if any. -/
def lineVal (raw : JStr) : Option Json := (lineScan 2 raw).1

/-- Whether a line ends the turn (dispatches a `complete` frame). -/
def lineCompletes (raw : JStr) : Bool :=
  match lineVal raw with
  | some d => jsTypeIs d (jstr "complete")
  | none => false

/-- Reference run: the lines of the stream processed in order, none of them final.
Chunk-split invariance is proved by showing both the split and the unsplit run land
on this fold. -/
def foldRun (sess0 : Option Json) (st : LoopState) (ls : List JStr) : LoopState :=
  ls.foldl (fun s l => forBody sess0 2 s l false) st

/-- The wire text of a newline-delimited frame sequence. -/
def streamOf : List JStr → JStr
  | [] => []
  | l :: ls => l ++ '\n' :: streamOf ls

/-- A well-formed frame line for the split-invariance theorems: non-empty,
whitespace-free, starting with the object-open character, and with no proper prefix
that already parses.  Valid single-line JSON objects without embedded whitespace
satisfy all four (decidably checkable per line). -/
def goodLineB (l : JStr) : Bool :=
  !l.isEmpty && l.all (fun c => !isJsWS c) && l.head? == some '{' &&
    (List.range l.length).all (fun k => !isOkB (Json.parse (l.take k)))

/-- Modelled from the spec (§4.1 Frame Decoder, edge case policy): the spec states
that a final chunk leaving a non-empty buffer is treated as a final candidate frame
for one synchronous parse attempt before being discarded as unrecoverable; the
source's read loop (Index.tsx 1398-1401) has no such code — it `break`s on `done` —
so the spec's behaviour is written out here for comparison with the loop's. -/
def specFinalAttempt (sess0 : Option Json) (st : LoopState) : LoopState :=
  if st.buffer.isEmpty then st
  else
    match Json.parse st.buffer with
    | .ok d => dispatch sess0 { st with buffer := [] } d
    | .error _ => { st with buffer := [] }

/-- Session-update rule the dispatch applies per frame when the turn began with a
falsy session: a `complete` frame carrying a truthy `session_id` overwrites. -/
def sessStep (acc : Option Json) (d : Json) : Option Json :=
  if jsTypeIs d (jstr "complete") && jsTruthyOpt (jsGet d (jstr "session_id")) then
    jsGet d (jstr "session_id")
  else acc

/-- The session after a frame trace, for a turn that began with a falsy session. -/
def sessFold (sess0 : Option Json) (frames : List Json) : Option Json :=
  frames.foldl sessStep sess0

/-- Whether a frame is the terminal frame. -/
def isCompleteFrame (d : Json) : Bool := jsTypeIs d (jstr "complete")

/-- Message sender (Index.tsx 1235). -/
inductive Sender where
  | user : Sender
  | bot : Sender
  deriving DecidableEq

/-- Message payload kinds (Index.tsx 1212). -/
inductive MessageType where
  | text : MessageType
  | code : MessageType
  | markdown : MessageType
  | canvas : MessageType
  | image : MessageType
  deriving DecidableEq

/-- Attached file (Index.tsx 1214-1219). -/
structure FileObj where
  id : Nat
  name : JStr
  ftype : JStr
  url : JStr
  deriving DecidableEq

/-- A history entry (Index.tsx 1233-1244).  `id` models `generateId()` — a fresh
random identifier, embedded as a counter-issued natural, which preserves the only
property the code relies on (identifying a message); `timestamp` (`Date.now()`,
wall-clock) is not modelled, no behaviour reads it. -/
structure Message where
  id : Nat
  sender : Sender
  content : JStr
  type : MessageType
  files : Option (List FileObj)
  hasCode : Bool
  hasCitations : Bool
  processingSteps : Option (List PStep)
  citations : Option Json

/-- The reactive chat state (Index.tsx 1246-1253).  `currentSession` holds the raw
`data.session_id` value (a string in well-formed frames); `canvasContent` is carried
but orthogonal to streaming. -/
structure ChatState where
  messages : List Message
  isTyping : Bool
  files : List FileObj
  canvasContent : Option JStr
  currentSession : Option Json
  processingSteps : List PStep

/-- The full mutable state of the hook: the reactive `ChatState`, the
`processingRef` in-flight flag (Index.tsx 1313) and the fresh-id supply. -/
structure World where
  chat : ChatState
  processing : Bool
  nextId : Nat

/-- Sequence-starts-with test (`pat` begins `s`). -/
def startsSeq (pat s : JStr) : Bool :=
  match pat, s with
  | [], _ => true
  | _ :: _, [] => false
  | a :: as, b :: bs => a == b && startsSeq as bs

/-- Model of `String.prototype.includes`: does `pat` occur inside the second
argument. -/
def containsSeq (pat : JStr) : JStr → Bool
  | [] => pat.isEmpty
  | c :: rest => startsSeq pat (c :: rest) || containsSeq pat rest

/-- Core of `addMessage` (Index.tsx 1661-1678): build the message, append it to
history, clear the pending files.  The user-message trigger at 1681 is layered on
top in `addMessageT`; `processChat` reaches only this core (its messages have
sender `bot`, for which the trigger condition is false). -/
def appendMessage (w : World) (content : JStr) (sender : Sender) (ty : MessageType)
    (files : Option (List FileObj)) (hasCits : Bool) (psteps : Option (List PStep))
    (cits : Option Json) : World :=
  let msg : Message :=
    { id := w.nextId, sender := sender, content := content, type := ty, files := files,
      hasCode := containsSeq (jstr "```") content, hasCitations := hasCits,
      processingSteps := psteps, citations := cits }
  { w with nextId := w.nextId + 1,
           chat := { w.chat with messages := w.chat.messages ++ [msg], files := [] } }

/-- Fallback error message (Index.tsx 1614). -/
def msgGeneric : JStr :=
  jstr "Sorry, there was an error processing your request. Please try again."

/-- Decode-failure message (Index.tsx 1626).  Unreachable through the modelled
paths: every frame-level parse error is caught inside the loop. -/
def msgDecode : JStr :=
  jstr "Sorry, there was an error processing the response data. This might be due to a temporary issue with our servers. Please try again in a moment."

/-- Incomplete-stream message (Index.tsx 1629): the stream closed without a
terminal frame. -/
def msgIncomplete : JStr :=
  jstr "We didn\x27t receive a complete response from our servers. This might be due to a timeout or connection issue. Please try a shorter query or try again later."

/-- Transport-failure message (Index.tsx 1631): the request itself failed. -/
def msgTransport : JStr :=
  jstr "Sorry, we couldn\x27t reach our servers. Please check your internet connection and try again."

/-- Empty-body message (Index.tsx 1633). -/
def msgEmpty : JStr :=
  jstr "We received an empty response from our servers. Please try again."

/-- Outcome of the `fetch` call as `processChat` observes it: a rejected fetch
(network failure), a non-ok status (line 1376), a null body (1381), or a streamed
body delivered as a chunk sequence followed by `done`. -/
inductive FetchOutcome where
  | networkError : FetchOutcome
  | httpError (status : Nat) : FetchOutcome
  | nullBody : FetchOutcome
  | stream (chunks : List JStr) : FetchOutcome

/-- The outer catch of `processChat` (Index.tsx 1603-1648): clear the typing
indicator and the transient step list, append exactly one synthesized bot error
message (no steps attached), release the in-flight flag. -/
def errorExit (w : World) (msg : JStr) : World :=
  let w := { w with chat := { w.chat with isTyping := false, processingSteps := [] } }
  let w := appendMessage w msg .bot .markdown none false none none
  { w with processing := false }

/-- The final answer text `responseData.response` (a string on the wire contract;
non-string payloads are outside it). -/
def respContent (d : Json) : JStr :=
  match jsGet d (jstr "response") with
  | some (.str s) => s
  | _ => []

/-- Test `responseData.citation_array && responseData.citation_array.length > 0`
(Index.tsx 1559). -/
def hasCitsOf (d : Json) : Bool :=
  match jsGet d (jstr "citation_array") with
  | some (.arr l) => decide (l.length > 0)
  | some (.str s) => decide (s.length > 0)
  | _ => false

/-- Mark the final collected step completed (Index.tsx 1562-1564): `finalStep` is
the last array element, mutated in place, so the attached list keeps every earlier
step untouched. -/
def markLastCompleted (steps : List PStep) : List PStep :=
  match steps.getLast? with
  | none => steps
  | some fin => steps.dropLast ++ [{ fin with completed := some true }]

/-- The outgoing request body (Index.tsx 1360-1365): always `user_query`, plus
`session_id` whenever the retained session is truthy. -/
def requestBodyOf (sess : Option Json) (query : JStr) : List (JStr × Json) :=
  let base := [(jstr "user_query", Json.str query)]
  if jsTruthyOpt sess then base ++ [(jstr "session_id", sess.getD .null)] else base

/-- Model of `processChat` (Index.tsx 1337-1649).  The guard at 1339 makes a call
during an in-flight turn a pure no-op.  On admission the flag is set, the typing
indicator raised and stale steps cleared; the fetch outcome then drives either an
error exit or the stream loop.  On a terminal frame the final step is marked
completed, the transient list cleared (inside the 800 ms settle timeout, modelled
synchronously: the timer only defers the two updates) and the answer appended with
the collected steps and citations; a stream without a terminal frame raises `No
complete response received from API`, which the outer catch maps to the
incomplete-stream message.  The `finally` releases the flag. -/
def processChat (w : World) (query : JStr) (f : FetchOutcome) : World :=
  if w.processing then w
  else
    let w1 := { w with processing := true }
    let w2 := { w1 with chat := { w1.chat with isTyping := true, processingSteps := [] } }
    let _requestBody := requestBodyOf w2.chat.currentSession query
    match f with
    | .networkError => errorExit w2 msgGeneric
    | .httpError _ => errorExit w2 msgTransport
    | .nullBody => errorExit w2 msgEmpty
    | .stream cs =>
      let sess0 := w2.chat.currentSession
      let st := processStream sess0 (initLoop sess0) cs
      let c3 := { w2.chat with isTyping := false, currentSession := st.currentSession,
                               processingSteps := st.processingSteps }
      let w3 := { w2 with chat := c3 }
      match st.responseData with
      | some d =>
        let steps := markLastCompleted st.collectedSteps
        let w4 := { w3 with chat := { w3.chat with processingSteps := [] } }
        let w5 := appendMessage w4 (respContent d) .bot .markdown none (hasCitsOf d)
                    (some steps)
                    (if hasCitsOf d then jsGet d (jstr "citation_array") else none)
        { w5 with processing := false }
      | none => errorExit w3 msgIncomplete

/-- Instrumented `addMessage` (Index.tsx 1652-1684): append the message, then start
a turn exactly when the sender is the user, the type is `text` and no request is in
flight; the boolean records whether `processChat` was invoked. -/
def addMessageT (w : World) (content : JStr) (sender : Sender) (ty : MessageType)
    (files : Option (List FileObj)) (hasCits : Bool) (psteps : Option (List PStep))
    (cits : Option Json) (f : FetchOutcome) : World × Bool :=
  let w1 := appendMessage w content sender ty files hasCits psteps cits
  if sender == .user && ty == .text && !w1.processing then
    (processChat w1 content f, true)
  else (w1, false)

/-- Model of `addMessage`. -/
def addMessage (w : World) (content : JStr) (sender : Sender) (ty : MessageType)
    (files : Option (List FileObj)) (hasCits : Bool) (psteps : Option (List PStep))
    (cits : Option Json) (f : FetchOutcome) : World :=
  (addMessageT w content sender ty files hasCits psteps cits f).1

/-- Model of `regenerateMessage` (Index.tsx 1735-1757): look the id up in history
(`findIndex`), reject bot messages and unknown ids, otherwise truncate history just
after the turn, clear the transient steps and resubmit the same content. -/
def regenerateMessage (w : World) (messageId : Nat) (f : FetchOutcome) : World :=
  match w.chat.messages.findIdx? (fun m => m.id == messageId) with
  | none => w
  | some i =>
    match w.chat.messages[i]? with
    | none => w
    | some m =>
      if m.sender != .user then w
      else
        let c1 := { w.chat with messages := w.chat.messages.take (i + 1),
                                processingSteps := ([] : List PStep) }
        processChat { w with chat := c1 } m.content f

/-- Model of `clearChat` (Index.tsx 1718-1732). -/
def clearChat (w : World) : World :=
  { w with chat := { messages := [], isTyping := false, files := [], canvasContent := none,
                     currentSession := none, processingSteps := [] } }

/-- Observation on decoded frames: the `response` field when it is a string. -/
def frameResp (d : Json) : Option JStr :=
  match jsGet d (jstr "response") with
  | some (.str s) => some s
  | _ => none

/-- Observation on decoded frames: the `type` field when it is a string. -/
def frameKind (d : Json) : Option JStr :=
  match jsGet d (jstr "type") with
  | some (.str s) => some s
  | _ => none

/-- A valid terminal frame whose string value contains a space. -/
def c1exWhole : JStr := jstr "\x7b\"type\":\"complete\",\"response\":\"a b\"\x7d\n"

/-- The same stream split right after the in-string space. -/
def c1exChunkA : JStr := jstr "\x7b\"type\":\"complete\",\"response\":\"a "

/-- Second half of the split. -/
def c1exChunkB : JStr := jstr "b\"\x7d\n"

/-- The terminal frame of the specification's reassembly scenario. -/
def c1line : JStr := jstr "\x7b\"type\":\"complete\",\"response\":\"ok\"\x7d"

/-- First chunk of the scenario split (`mid-frame, mid-string`). -/
def c1chunkA : JStr := jstr "\x7b\"type\":\"comple"

/-- Second chunk of the scenario split. -/
def c1chunkB : JStr := jstr "te\",\"response\":\"ok\"\x7d\n"

/-- A progress frame whose final string value misses its closing quote (the
closing brace is absorbed into the unterminated string). -/
def c2bad : JStr := jstr "\x7b\"type\":\"processing_step\",\"message\":\"Searching\x7d"

/-- The well-formed terminal frame following it. -/
def c2good : JStr := jstr "\x7b\"type\":\"complete\",\"response\":\"ok\"\x7d"

/-- The parse of `c2good`. -/
def c2goodVal : Json :=
  .obj [(jstr "type", .str (jstr "complete")), (jstr "response", .str (jstr "ok"))]

/-- A stream that delivers one progress frame and then ends without a terminal
frame. -/
def c4chunk : JStr := jstr "\x7b\"type\":\"processing_step\",\"message\":\"x\"\x7d\n"

/-- The specification's two-progress-frames scenario stream. -/
def c8chunk : JStr :=
  jstr "\x7b\"type\":\"processing_step\",\"message\":\"Searching\"\x7d\n\x7b\"type\":\"processing_step\",\"message\":\"Reading docs\"\x7d\n\x7b\"type\":\"complete\",\"response\":\"Here is the answer\",\"session_id\":\"abc123\"\x7d\n"

/-- A fresh conversation. -/
def w0 : World :=
  { chat := { messages := [], isTyping := false, files := [], canvasContent := none,
              currentSession := none, processingSteps := [] },
    processing := false, nextId := 0 }

/-- A previously admitted user turn. -/
def demoUser : Message :=
  { id := 0, sender := .user, content := jstr "hi", type := .text, files := none,
    hasCode := false, hasCitations := false, processingSteps := none, citations := none }

/-- The bot answer that followed it. -/
def demoBot : Message :=
  { id := 1, sender := .bot, content := jstr "yo", type := .markdown, files := none,
    hasCode := false, hasCitations := false, processingSteps := none, citations := none }

/-- A conversation with one finished turn. -/
def w9 : World :=
  { chat := { messages := [demoUser, demoBot], isTyping := false, files := [],
              canvasContent := none, currentSession := none, processingSteps := [] },
    processing := false, nextId := 2 }

/-- The message `processChat` appends for the bot (both the final answer and the
synthesized error messages): sender `bot`, type `markdown`, no files. -/
def botMessage (i : Nat) (content : JStr) (hasCits : Bool) (psteps : Option (List PStep))
    (cits : Option Json) : Message :=
  { id := i, sender := .bot, content := content, type := .markdown, files := none,
    hasCode := containsSeq (jstr "```") content, hasCitations := hasCits,
    processingSteps := psteps, citations := cits }

/-- The single line of the in-string-space stream (`c1exWhole` is its wire text). -/
def c1exLine : JStr := jstr "\x7b\"type\":\"complete\",\"response\":\"a b\"\x7d"

/-- Invariant tying the loop state after some chunks to the line structure of the
remaining wire text `R`: either a proper prefix of the next line sits in the buffer
(and has already failed its parse attempt), or the buffer is empty and `R` resumes
at the pending newline, or at a line start. -/
def StreamInv (sess0 : Option Json) (done rest : List JStr) (R : JStr)
    (st : LoopState) : Prop :=
  (∃ l rest'' k, rest = l :: rest'' ∧ k ≤ l.length ∧
      isOkB (Json.parse (l.take k)) = false ∧
      st = { foldRun sess0 (initLoop sess0) done with buffer := l.take k } ∧
      R = l.drop k ++ '\n' :: streamOf rest'')
  ∨ (st = foldRun sess0 (initLoop sess0) done ∧ R = '\n' :: streamOf rest)
  ∨ (st = foldRun sess0 (initLoop sess0) done ∧ R = streamOf rest)

/-! ### Basic lemmas: whitespace, trimming, splitting -/

theorem dropWhile_eq_self_of_all {p : Char → Bool} :
    ∀ l : JStr, (∀ c ∈ l, p c = false) → l.dropWhile p = l := by
  intro l h
  cases l with
  | nil => rfl
  | cons a t => simp [List.dropWhile, h a (List.mem_cons_self a t)]

theorem trimWs_of_wsFree (l : JStr) (h : ∀ c ∈ l, isJsWS c = false) : trimWs l = l := by
  have h1 : l.reverse.dropWhile isJsWS = l.reverse :=
    dropWhile_eq_self_of_all l.reverse (fun c hc => h c (List.mem_reverse.mp hc))
  unfold trimWs lstripWs rstripWs
  rw [h1, List.reverse_reverse, dropWhile_eq_self_of_all l h]

theorem lstripWs_head_not_ws (s : JStr) :
    lstripWs s = [] ∨ ∃ c t, lstripWs s = c :: t ∧ isJsWS c = false := by
  induction s with
  | nil => exact Or.inl rfl
  | cons a t ih =>
    by_cases h : isJsWS a
    · simpa [lstripWs, List.dropWhile, h] using ih
    · exact Or.inr ⟨a, t, by simp [lstripWs, List.dropWhile, h], by simpa using h⟩

theorem dropWhile_getLast? {p : Char → Bool} :
    ∀ l : JStr, l.dropWhile p = [] ∨ (l.dropWhile p).getLast? = l.getLast? := by
  intro l
  induction l with
  | nil => exact Or.inl rfl
  | cons a t ih =>
    by_cases h : p a
    · rcases ih with h' | h'
      · exact Or.inl (by simp [List.dropWhile, h, h'])
      · rcases ht : t.dropWhile p with _ | ⟨b, u⟩
        · exact Or.inl (by simp [List.dropWhile, h, ht])
        · refine Or.inr ?_
          rw [List.dropWhile_cons, if_pos h, ht]
          rw [ht] at h'
          rcases t with _ | ⟨x, v⟩
          · simp [List.dropWhile] at ht
          · rw [h', List.getLast?_cons_cons]
    · exact Or.inr (by simp [List.dropWhile, h])

theorem rstripWs_getLast_not_ws (s : JStr) :
    rstripWs s = [] ∨ ∃ c, (rstripWs s).getLast? = some c ∧ isJsWS c = false := by
  unfold rstripWs
  rcases h : s.reverse.dropWhile isJsWS with _ | ⟨a, t⟩
  · exact Or.inl (by simp)
  · refine Or.inr ⟨a, ?_, ?_⟩
    · simp [List.getLast?_reverse]
    · have := List.head?_dropWhile_not isJsWS s.reverse
      rw [h] at this
      simpa using this

theorem rstripWs_eq_self_of_getLast (s : JStr) (h : ∀ c, s.getLast? = some c → isJsWS c = false) :
    rstripWs s = s := by
  unfold rstripWs
  rcases hs : s.reverse with _ | ⟨a, t⟩
  · have : s = [] := by simpa using congrArg List.reverse hs
    simp [this]
  · have ha : s.getLast? = some a := by
      rw [← List.reverse_reverse s, hs, List.getLast?_reverse]; rfl
    have hd2 : List.dropWhile isJsWS (a :: t) = a :: t := by
      simp [List.dropWhile, h a ha]
    rw [hd2, ← hs, List.reverse_reverse]

theorem lstripWs_getLast? (s : JStr) :
    lstripWs s = [] ∨ (lstripWs s).getLast? = s.getLast? := by
  unfold lstripWs
  exact dropWhile_getLast? s

theorem lstripWs_idem (s : JStr) : lstripWs (lstripWs s) = lstripWs s := by
  rcases lstripWs_head_not_ws s with h | ⟨c, t, h, hc⟩
  · rw [h]; rfl
  · rw [h]
    unfold lstripWs
    rw [List.dropWhile_cons, if_neg (by simp [hc])]

theorem trimWs_idem (s : JStr) : trimWs (trimWs s) = trimWs s := by
  unfold trimWs
  have h1 : rstripWs (lstripWs (rstripWs s)) = lstripWs (rstripWs s) := by
    apply rstripWs_eq_self_of_getLast
    intro c hc
    rcases lstripWs_getLast? (rstripWs s) with h | h
    · rw [h] at hc; simp at hc
    · rw [h] at hc
      rcases rstripWs_getLast_not_ws s with h' | ⟨d, hd, hdw⟩
      · rw [h'] at hc; simp at hc
      · rw [hd] at hc
        cases hc
        exact hdw
  rw [h1, lstripWs_idem]

theorem splitNl_ne_nil (s : JStr) : splitNl s ≠ [] := by
  cases s with
  | nil => simp [splitNl]
  | cons c rest =>
    by_cases h : c == '\n'
    · simp [splitNl, h]
    · simp only [splitNl, h]
      rcases hs : splitNl rest with _ | ⟨a, t⟩ <;> simp

theorem splitNl_append_noNl (a b : JStr) (h : ∀ c ∈ a, (c == '\n') = false) :
    ∃ hd tl, splitNl b = hd :: tl ∧ splitNl (a ++ b) = (a ++ hd) :: tl := by
  induction a with
  | nil =>
    rcases hb : splitNl b with _ | ⟨hd, tl⟩
    · exact absurd hb (splitNl_ne_nil b)
    · exact ⟨hd, tl, rfl, by simp [hb]⟩
  | cons c a' ih =>
    obtain ⟨hd, tl, hb, hab⟩ := ih (fun x hx => h x (List.mem_cons_of_mem c hx))
    refine ⟨hd, tl, hb, ?_⟩
    have hc : (c == '\n') = false := h c (List.mem_cons_self c a')
    simp only [List.cons_append, splitNl, hc, Bool.false_eq_true, if_false, List.append_eq, hab]

theorem splitNl_noNl (a : JStr) (h : ∀ c ∈ a, (c == '\n') = false) : splitNl a = [a] := by
  obtain ⟨hd, tl, hb, hab⟩ := splitNl_append_noNl a [] h
  simp [splitNl] at hb
  rw [← List.append_nil a, hab, hb.1, hb.2, List.append_nil]

theorem splitNl_nl_cons (b : JStr) : splitNl ('\n' :: b) = [] :: splitNl b := by
  simp [splitNl]

theorem splitNl_streamOf (ls : List JStr) (h : ∀ l ∈ ls, ∀ c ∈ l, (c == '\n') = false) :
    splitNl (streamOf ls) = ls ++ [[]] := by
  induction ls with
  | nil => simp [streamOf, splitNl]
  | cons l ls' ih =>
    have hl := h l (List.mem_cons_self l ls')
    obtain ⟨hd, tl, hb, hab⟩ :=
      splitNl_append_noNl l ('\n' :: streamOf ls') hl
    rw [splitNl_nl_cons, ih (fun x hx => h x (List.mem_cons_of_mem l hx))] at hb
    cases hb
    simpa [streamOf] using hab

/-! ### Dispatch and line-body lemmas -/

theorem dispatch_buffer (sess0 : Option Json) (st : LoopState) (d : Json) :
    (dispatch sess0 st d).buffer = st.buffer := by
  unfold dispatch
  split
  · rfl
  · split
    · split <;> rfl
    · rfl

theorem dispatch_frames (sess0 : Option Json) (st : LoopState) (d : Json) :
    (dispatch sess0 st d).frames = st.frames ++ [d] := by
  unfold dispatch
  split
  · rfl
  · split
    · split <;> rfl
    · rfl

theorem jsTypeIs_step_not_complete (d : Json)
    (h : jsTypeIs d (jstr "processing_step") = true) :
    jsTypeIs d (jstr "complete") = false := by
  unfold jsTypeIs at h ⊢
  rcases hg : jsGet d (jstr "type") with _ | j
  · simp [hg] at h
  · simp only [hg] at h ⊢
    cases j with
    | str u =>
      have hu : u = jstr "processing_step" := by simpa using h
      subst hu
      decide
    | null => simp at h
    | bool b => simp at h
    | num l => simp at h
    | arr es => simp at h
    | obj fs => simp at h

theorem dispatch_isComplete (sess0 : Option Json) (st : LoopState) (d : Json) :
    (dispatch sess0 st d).isComplete = (st.isComplete || isCompleteFrame d) := by
  unfold dispatch isCompleteFrame
  by_cases h1 : jsTypeIs d (jstr "processing_step") = true
  · simp [h1, jsTypeIs_step_not_complete d h1]
  · by_cases h2 : jsTypeIs d (jstr "complete") = true
    · simp only [h1, Bool.false_eq_true, if_false, h2, if_true]
      split <;> simp [h2]
    · simp [h1, h2, Bool.eq_false_iff.mpr h2]

theorem dispatch_session_of_truthy (sess0 : Option Json) (st : LoopState) (d : Json)
    (h : jsTruthyOpt sess0 = true) :
    (dispatch sess0 st d).currentSession = st.currentSession := by
  unfold dispatch
  split
  · rfl
  · split
    · split
      · next hcond => rw [h] at hcond; simp at hcond
      · rfl
    · rfl

theorem dispatch_session_of_falsy (sess0 : Option Json) (st : LoopState) (d : Json)
    (h : jsTruthyOpt sess0 = false) :
    (dispatch sess0 st d).currentSession = sessStep st.currentSession d := by
  unfold dispatch sessStep
  by_cases h1 : jsTypeIs d (jstr "processing_step") = true
  · simp [h1, jsTypeIs_step_not_complete d h1]
  · by_cases h2 : jsTypeIs d (jstr "complete") = true
    · simp only [h1, Bool.false_eq_true, if_false, h2, if_true, h, Bool.not_false, Bool.and_true]
      split <;> simp_all
    · simp [h1, h2]

theorem forBody_eq_scan (sess0 : Option Json) :
    ∀ fuel raw st, forBody sess0 fuel st raw false =
      (match (lineScan fuel raw).1 with
       | some d => dispatch sess0 st d
       | none => st) := by
  intro fuel
  induction fuel with
  | zero => intro raw st; rfl
  | succ f ih =>
    intro raw st
    simp only [forBody, lineScan]
    by_cases hemp : (trimWs raw).isEmpty
    · simp [hemp]
    · simp only [hemp, Bool.false_eq_true, if_false]
      rcases hp : Json.parse (sanitizeLine (trimWs raw)) with e | d
      · simp only [hp]
        rcases hf : tryFix (sanitizeLine (trimWs raw)) e with _ | fixedLine
        · simp [hf]
        · simp only [hf]
          rcases hp2 : Json.parse fixedLine with e2 | d2
          · simp [hp2]
          · simp only [hp2]
            by_cases hrec :
                (jsTypeIs d2 (jstr "processing_step") || jsTypeIs d2 (jstr "complete")) = true
            · simp only [hrec]
              simp only [Bool.or_eq_true] at hrec
              simp [hrec, ih]
            · simp only [Bool.or_eq_true] at hrec
              simp [hrec]
      · simp [hp]

theorem forBody_false_buffer (sess0 : Option Json) (fuel : Nat) (st : LoopState) (raw : JStr) :
    (forBody sess0 fuel st raw false).buffer = st.buffer := by
  rw [forBody_eq_scan]
  rcases (lineScan fuel raw).1 with _ | d
  · rfl
  · exact dispatch_buffer sess0 st d

theorem forBody_isComplete_false (sess0 : Option Json) (st : LoopState) (raw : JStr) :
    (forBody sess0 2 st raw false).isComplete = (st.isComplete || lineCompletes raw) := by
  rw [forBody_eq_scan]
  unfold lineCompletes lineVal
  rcases h : (lineScan 2 raw).1 with _ | d
  · simp
  · simp [dispatch_isComplete, isCompleteFrame]

theorem isOkB_false_iff (r : Except JErr Json) : isOkB r = false ↔ ∃ e, r = .error e := by
  cases r <;> simp [isOkB]

theorem forBody_skip (sess0 : Option Json) (fuel : Nat) (st : LoopState) (raw : JStr)
    (b : Bool) (h : (trimWs raw).isEmpty = true) : forBody sess0 (fuel + 1) st raw b = st := by
  simp [forBody, h]

theorem forBody_of_parse_ok (sess0 : Option Json) (fuel : Nat) (st : LoopState) (raw : JStr)
    (b : Bool) (d : Json) (hp : Json.parse (sanitizeLine (trimWs raw)) = .ok d) :
    forBody sess0 (fuel + 1) st raw b = dispatch sess0 st d := by
  have hne : (trimWs raw).isEmpty = false := by
    rcases h0 : trimWs raw with _ | ⟨c, t⟩
    · rw [h0] at hp
      have hfail : isOkB (Json.parse (sanitizeLine ([] : JStr))) = false := by decide
      rw [hp] at hfail
      simp [isOkB] at hfail
    · rfl
  simp [forBody, hne, hp]

theorem forBody_of_parse_fail_last (sess0 : Option Json) (fuel : Nat) (st : LoopState)
    (raw : JStr) (e : JErr) (hne : (trimWs raw).isEmpty = false)
    (hp : Json.parse (sanitizeLine (trimWs raw)) = .error e) :
    forBody sess0 (fuel + 1) st raw true = { st with buffer := sanitizeLine (trimWs raw) } := by
  simp [forBody, hne, hp]

/-! ### Good-line lemmas -/

theorem goodB_wsFree (l : JStr) (h : goodLineB l = true) : ∀ c ∈ l, isJsWS c = false := by
  unfold goodLineB at h
  simp only [Bool.and_eq_true, List.all_eq_true] at h
  intro c hc
  simpa using h.1.1.2 c hc

theorem goodB_ne_nil (l : JStr) (h : goodLineB l = true) : l ≠ [] := by
  unfold goodLineB at h
  simp only [Bool.and_eq_true] at h
  intro hl
  rw [hl] at h
  simp at h

theorem goodB_head (l : JStr) (h : goodLineB l = true) : l.head? = some '{' := by
  unfold goodLineB at h
  simp only [Bool.and_eq_true] at h
  simpa using h.1.2

theorem goodB_prefixFail (l : JStr) (h : goodLineB l = true) :
    ∀ k < l.length, isOkB (Json.parse (l.take k)) = false := by
  unfold goodLineB at h
  simp only [Bool.and_eq_true, List.all_eq_true] at h
  intro k hk
  have := h.2 k (List.mem_range.mpr hk)
  simpa using this

theorem goodB_noNl (l : JStr) (h : goodLineB l = true) : ∀ c ∈ l, (c == '\n') = false := by
  intro c hc
  have := goodB_wsFree l h c hc
  rcases hcn : c == '\n' with _ | _
  · rfl
  · have : c = '\n' := by simpa using hcn
    subst this
    simp [isJsWS] at *

theorem sanitizeLine_of_head (l : JStr) (h : l.head? = some '{') : sanitizeLine l = l := by
  unfold sanitizeLine
  rw [h]
  simp

theorem head?_take (l : JStr) (k : Nat) (hk : 0 < k) : (l.take k).head? = l.head? := by
  cases l with
  | nil => simp
  | cons a t =>
    cases k with
    | zero => omega
    | succ k' => simp

theorem trimWs_take_of_good (l : JStr) (h : goodLineB l = true) (k : Nat) :
    trimWs (l.take k) = l.take k :=
  trimWs_of_wsFree _ (fun c hc => goodB_wsFree l h c (List.take_subset k l hc))

/-! ### Chunk-loop plumbing -/

theorem foldRun_nil (sess0 : Option Json) (st : LoopState) : foldRun sess0 st [] = st := rfl

theorem foldRun_cons (sess0 : Option Json) (st : LoopState) (l : JStr) (ls : List JStr) :
    foldRun sess0 st (l :: ls) = foldRun sess0 (forBody sess0 2 st l false) ls := rfl

theorem foldRun_append (sess0 : Option Json) (st : LoopState) (a b : List JStr) :
    foldRun sess0 st (a ++ b) = foldRun sess0 (foldRun sess0 st a) b := by
  unfold foldRun
  exact List.foldl_append _ _ a b

theorem foldRun_buffer (sess0 : Option Json) (ls : List JStr) :
    ∀ st : LoopState, (foldRun sess0 st ls).buffer = st.buffer := by
  induction ls with
  | nil => intro st; rfl
  | cons l t ih =>
    intro st
    rw [foldRun_cons, ih, forBody_false_buffer]

theorem foldRun_isComplete (sess0 : Option Json) (ls : List JStr) :
    ∀ st : LoopState, (foldRun sess0 st ls).isComplete = (st.isComplete || ls.any lineCompletes) := by
  induction ls with
  | nil => intro st; simp [foldRun_nil]
  | cons l t ih =>
    intro st
    rw [foldRun_cons, ih, forBody_isComplete_false]
    simp [Bool.or_assoc]

theorem runLines_pair (sess0 : Option Json) (st : LoopState) (l h : JStr) (t : List JStr) :
    runLines sess0 st (l :: h :: t) = runLines sess0 (forBody sess0 2 st l false) (h :: t) := rfl

theorem runLines_single (sess0 : Option Json) (st : LoopState) (l : JStr) :
    runLines sess0 st [l] = forBody sess0 2 st l true := rfl

theorem buffer_clear_eq (st : LoopState) (h : st.buffer = []) :
    { st with buffer := ([] : JStr) } = st := by
  cases st
  simp_all

theorem processChunk_eq (sess0 : Option Json) (st : LoopState) (c : JStr)
    (hb : ∀ ch ∈ st.buffer, (ch == '\n') = false) :
    processChunk sess0 st c = runLines sess0 { st with buffer := [] } (splitNl (st.buffer ++ c)) := by
  unfold processChunk
  by_cases h0 : st.buffer.length > 0
  · obtain ⟨hd, tl, hc, hac⟩ := splitNl_append_noNl st.buffer c hb
    rw [hac, hc]
    simp [h0]
  · have hb0 : st.buffer = [] := List.length_eq_zero.mp (by omega)
    rw [hb0]
    simp

theorem streamOf_cons (l : JStr) (ls : List JStr) :
    streamOf (l :: ls) = l ++ '\n' :: streamOf ls := rfl

theorem streamOf_eq_nil_iff (ls : List JStr) : streamOf ls = [] ↔ ls = [] := by
  cases ls with
  | nil => simp [streamOf]
  | cons l t => simp [streamOf_cons]

/-- Core alignment lemma for split invariance: running the line loop on the
fragments of any prefix `u` of the wire text of well-formed lines lands exactly on
the reference fold over the fully delivered lines, with the still-pending partial
line (if any) sitting in the buffer. -/
theorem runFrags (sess0 : Option Json) :
    ∀ (rest : List JStr) (u u' : JStr) (st : LoopState),
      (∀ l ∈ rest, goodLineB l = true) →
      u ++ u' = streamOf rest →
      st.buffer = [] →
      (∃ done l rest'' k,
          rest = done ++ l :: rest'' ∧ k ≤ l.length ∧
          isOkB (Json.parse (l.take k)) = false ∧
          runLines sess0 st (splitNl u) = { foldRun sess0 st done with buffer := l.take k } ∧
          u' = l.drop k ++ '\n' :: streamOf rest'')
      ∨ (∃ done rest',
          rest = done ++ rest' ∧
          runLines sess0 st (splitNl u) = foldRun sess0 st done ∧
          u' = '\n' :: streamOf rest')
      ∨ (runLines sess0 st (splitNl u) = foldRun sess0 st rest ∧ u' = []) := by
  intro rest
  induction rest with
  | nil =>
    intro u u' st hg hu hb
    have hu0 : u = [] ∧ u' = [] := List.append_eq_nil.mp (by simpa [streamOf] using hu)
    obtain ⟨h1, h2⟩ := hu0
    subst h1
    subst h2
    refine Or.inr (Or.inr ⟨?_, rfl⟩)
    exact forBody_skip sess0 1 st [] true rfl
  | cons l rest₂ ih =>
    intro u u' st hg hu hb
    have hgl : goodLineB l = true := hg l (List.mem_cons_self _ _)
    have hgr : ∀ x ∈ rest₂, goodLineB x = true := fun x hx => hg x (List.mem_cons_of_mem _ hx)
    rw [streamOf_cons] at hu
    by_cases hn : u.length ≤ l.length
    · have hu_take : u = l.take u.length := by
        have h1 : (u ++ u').take u.length = u := List.take_left u u'
        rw [hu, List.take_append_of_le_length hn] at h1
        exact h1.symm
      have hu' : u' = l.drop u.length ++ '\n' :: streamOf rest₂ := by
        have h1 : (u ++ u').drop u.length = u' := List.drop_left u u'
        rw [hu, List.drop_append_of_le_length hn] at h1
        exact h1.symm
      have hwsu : ∀ c ∈ u, isJsWS c = false := by
        intro c hc
        rw [hu_take] at hc
        exact goodB_wsFree l hgl c (List.take_subset _ _ hc)
      have hsplit : splitNl u = [u] := by
        apply splitNl_noNl
        intro c hc
        rw [hu_take] at hc
        exact goodB_noNl l hgl c (List.take_subset _ _ hc)
      cases hok : isOkB (Json.parse u) with
      | true =>
        have hlen : u.length = l.length := by
          by_contra hne
          have hlt : u.length < l.length := lt_of_le_of_ne hn hne
          have hpf := goodB_prefixFail l hgl u.length hlt
          rw [← hu_take, hok] at hpf
          exact absurd hpf (by simp)
        have hul : u = l := by rw [hu_take, hlen, List.take_length]
        obtain ⟨d, hd⟩ : ∃ d, Json.parse u = .ok d := by
          rcases hp : Json.parse u with e | d
          · rw [hp] at hok; simp [isOkB] at hok
          · exact ⟨d, rfl⟩
        have hpok : Json.parse (sanitizeLine (trimWs u)) = .ok d := by
          rw [trimWs_of_wsFree u hwsu, hul, sanitizeLine_of_head l (goodB_head l hgl), ← hul, hd]
        refine Or.inr (Or.inl ⟨[u], rest₂, by rw [hul]; rfl, ?_, ?_⟩)
        · rw [hsplit, runLines_single, forBody_of_parse_ok sess0 1 st u true d hpok]
          show _ = forBody sess0 2 st u false
          rw [forBody_of_parse_ok sess0 1 st u false d hpok]
        · rw [hu', hlen, List.drop_length, List.nil_append]
      | false =>
        refine Or.inl ⟨[], l, rest₂, u.length, rfl, hn, by rw [← hu_take]; exact hok, ?_, hu'⟩
        by_cases hlen0 : u.length = 0
        · have hu0 : u = [] := List.length_eq_zero.mp hlen0
          subst hu0
          simp only [List.length_nil, List.take_zero, foldRun_nil]
          rw [hsplit, runLines_single, forBody_skip sess0 1 st [] true rfl,
            buffer_clear_eq st hb]
        · have hpos : 0 < u.length := Nat.pos_of_ne_zero hlen0
          have hune : u ≠ [] := by
            intro h0
            rw [h0] at hpos
            simp at hpos
          have hne0 : (trimWs u).isEmpty = false := by
            rw [trimWs_of_wsFree u hwsu]
            rcases hu00 : u with _ | ⟨a, b⟩
            · exact absurd hu00 hune
            · rfl
          have hhead : u.head? = some '{' := by
            rw [hu_take, head?_take l u.length hpos, goodB_head l hgl]
          obtain ⟨e, he⟩ := (isOkB_false_iff _).mp hok
          have hpe : Json.parse (sanitizeLine (trimWs u)) = .error e := by
            rw [trimWs_of_wsFree u hwsu, sanitizeLine_of_head u hhead, he]
          rw [hsplit, runLines_single,
            forBody_of_parse_fail_last sess0 1 st u e hne0 hpe]
          rw [trimWs_of_wsFree u hwsu, sanitizeLine_of_head u hhead, foldRun_nil, ← hu_take]
    · push_neg at hn
      have htk : u.take l.length = l := by
        have h1 : (u ++ u').take l.length = u.take l.length :=
          List.take_append_of_le_length (le_of_lt hn)
        rw [hu, List.take_left] at h1
        exact h1.symm
      have hu_dec : u = l ++ u.drop l.length := by
        conv_lhs => rw [← List.take_append_drop l.length u]
        rw [htk]
      have hrest : u.drop l.length ++ u' = '\n' :: streamOf rest₂ := by
        have h3 : l ++ (u.drop l.length ++ u') = l ++ ('\n' :: streamOf rest₂) := by
          rw [← List.append_assoc, ← hu_dec, hu]
        exact List.append_cancel_left h3
      rcases hdl : u.drop l.length with _ | ⟨x, xs⟩
      · exfalso
        have := congrArg List.length hdl
        simp at this
        omega
      · rw [hdl] at hrest
        have hx : x = '\n' ∧ xs ++ u' = streamOf rest₂ := by
          rw [List.cons_append] at hrest
          exact ⟨List.head_eq_of_cons_eq hrest, List.tail_eq_of_cons_eq hrest⟩
        obtain ⟨hx1, hxs⟩ := hx
        subst hx1
        rw [hdl] at hu_dec
        have hsplit : splitNl u = l :: splitNl xs := by
          obtain ⟨hd, tl, h1, h2⟩ :=
            splitNl_append_noNl l ('\n' :: xs) (goodB_noNl l hgl)
          rw [splitNl_nl_cons] at h1
          cases h1
          rw [hu_dec, h2, List.append_nil]
        obtain ⟨h2, t2, hx2⟩ : ∃ h2 t2, splitNl xs = h2 :: t2 := by
          rcases h : splitNl xs with _ | ⟨a, b⟩
          · exact absurd h (splitNl_ne_nil xs)
          · exact ⟨a, b, rfl⟩
        have hb₂ : (forBody sess0 2 st l false).buffer = [] := by
          rw [forBody_false_buffer, hb]
        have hrun : runLines sess0 st (splitNl u) =
            runLines sess0 (forBody sess0 2 st l false) (splitNl xs) := by
          rw [hsplit, hx2, runLines_pair]
        rcases ih xs u' (forBody sess0 2 st l false) hgr hxs hb₂ with
          ⟨done, l₂, rest₂'', k, hdec, hk, hfail, hres, hu₂'⟩ | ⟨done, rest', hdec, hres, hu₂'⟩ |
          ⟨hres, hu₂'⟩
        · exact Or.inl ⟨l :: done, l₂, rest₂'', k, by rw [hdec, List.cons_append], hk, hfail,
            by rw [hrun, hres]; simp only [foldRun_cons], hu₂'⟩
        · exact Or.inr (Or.inl ⟨l :: done, rest', by rw [hdec, List.cons_append],
            by rw [hrun, hres]; simp only [foldRun_cons], hu₂'⟩)
        · exact Or.inr (Or.inr ⟨by rw [hrun, hres]; simp only [foldRun_cons], hu₂'⟩)

/-- Repackage a `runFrags` outcome as a `StreamInv` for the continuation. -/
theorem runFrags_to_inv (sess0 : Option Json) (done rest : List JStr) (u u' : JStr)
    (hg : ∀ l ∈ rest, goodLineB l = true)
    (hu : u ++ u' = streamOf rest) :
    ∃ done₂ rest', rest = done₂ ++ rest' ∧
      StreamInv sess0 (done ++ done₂) rest' u'
        (runLines sess0 (foldRun sess0 (initLoop sess0) done) (splitNl u)) := by
  have hb : (foldRun sess0 (initLoop sess0) done).buffer = [] := by
    rw [foldRun_buffer]
    rfl
  rcases runFrags sess0 rest u u' _ hg hu hb with
    ⟨d₂, l₂, r₂, k, hdec, hk, hf, hres, hu'⟩ | ⟨d₂, r₂, hdec, hres, hu'⟩ | ⟨hres, hu'⟩
  · exact ⟨d₂, l₂ :: r₂, hdec,
      Or.inl ⟨l₂, r₂, k, rfl, hk, hf, by rw [hres]; simp only [foldRun_append], hu'⟩⟩
  · exact ⟨d₂, r₂, hdec, Or.inr (Or.inl ⟨by rw [hres]; simp only [foldRun_append], hu'⟩)⟩
  · exact ⟨rest, [], (List.append_nil rest).symm,
      Or.inr (Or.inr ⟨by rw [hres]; simp only [foldRun_append], by rw [hu']; rfl⟩)⟩

/-- The while-loop over chunks preserves `StreamInv` and, once the text is
exhausted, lands on the reference fold over all lines. -/
theorem streamRun (sess0 : Option Json) :
    ∀ (cs : List JStr) (done rest : List JStr) (st : LoopState),
      (∀ l ∈ done ++ rest, goodLineB l = true) →
      (∀ l ∈ (done ++ rest).dropLast, lineCompletes l = false) →
      StreamInv sess0 done rest cs.flatten st →
      processStream sess0 st cs = foldRun sess0 (initLoop sess0) (done ++ rest) := by
  intro cs
  induction cs with
  | nil =>
    intro done rest st hg ht hinv
    rcases hinv with ⟨l, r'', k, hrdec, _, _, hst, hR⟩ | ⟨hst, hR⟩ | ⟨hst, hR⟩
    · exact absurd hR.symm (by simp)
    · exact absurd hR.symm (by simp)
    · have hrest : rest = [] := (streamOf_eq_nil_iff rest).mp hR.symm
      subst hrest
      rw [List.append_nil]
      exact hst
  | cons c cs' ih =>
    intro done rest st hg ht hinv
    by_cases hic : st.isComplete = true
    · have hcomp : (foldRun sess0 (initLoop sess0) done).isComplete =
          done.any lineCompletes := by
        rw [foldRun_isComplete]
        rfl
      have hstc : st.isComplete = done.any lineCompletes := by
        rcases hinv with ⟨l, r'', k, _, _, _, hst, _⟩ | ⟨hst, _⟩ | ⟨hst, _⟩ <;>
          rw [hst] <;> exact hcomp
      have hany : done.any lineCompletes = true := by rw [← hstc]; exact hic
      obtain ⟨l0, hl0mem, hl0⟩ := List.any_eq_true.mp hany
      have hrest_nil : rest = [] := by
        by_contra hne
        have hmem : l0 ∈ (done ++ rest).dropLast := by
          rw [List.dropLast_append_of_ne_nil done hne]
          exact List.mem_append_left _ hl0mem
        rw [ht l0 hmem] at hl0
        exact absurd hl0 (by simp)
      subst hrest_nil
      rcases hinv with ⟨l, r'', k, hrdec, _⟩ | ⟨hst, _⟩ | ⟨hst, _⟩
      · exact absurd hrdec (by simp)
      · simp only [processStream, hic, if_true]
        rw [hst, List.append_nil]
      · simp only [processStream, hic, if_true]
        rw [hst, List.append_nil]
    · have hicf : st.isComplete = false := Bool.eq_false_iff.mpr hic
      have hstep : processStream sess0 st (c :: cs') =
          processStream sess0 (processChunk sess0 st c) cs' := by
        simp [processStream, hicf]
      rw [hstep]
      rcases hinv with ⟨l, r'', k, hrdec, hk, hkf, hst, hR⟩ | ⟨hst, hR⟩ | ⟨hst, hR⟩
      · subst hrdec
        have hgl : goodLineB l = true := hg l (by simp)
        have hbuf : st.buffer = l.take k := by rw [hst]
        have hbnl : ∀ ch ∈ st.buffer, (ch == '\n') = false := by
          intro ch hch
          rw [hbuf] at hch
          exact goodB_noNl l hgl ch (List.take_subset _ _ hch)
        rw [processChunk_eq sess0 st c hbnl]
        have hclr : { st with buffer := ([] : JStr) } =
            foldRun sess0 (initLoop sess0) done := by
          rw [hst]
          exact buffer_clear_eq (foldRun sess0 (initLoop sess0) done)
            (by rw [foldRun_buffer]; rfl)
        rw [hclr]
        have hjoin : c ++ cs'.flatten = l.drop k ++ '\n' :: streamOf r'' := by
          rw [← List.flatten_cons]
          exact hR
        have hu : (st.buffer ++ c) ++ cs'.flatten = streamOf (l :: r'') := by
          rw [hbuf, streamOf_cons, List.append_assoc, hjoin, ← List.append_assoc,
            List.take_append_drop]
        obtain ⟨done₂, rest', hdec₂, hinv₂⟩ :=
          runFrags_to_inv sess0 done (l :: r'') (st.buffer ++ c) cs'.flatten
            (fun x hx => hg x (List.mem_append_right done hx)) hu
        have hassoc : done ++ l :: r'' = (done ++ done₂) ++ rest' := by
          rw [hdec₂, List.append_assoc]
        rw [hassoc]
        exact ih (done ++ done₂) rest' _ (by rw [← hassoc]; exact hg)
          (by rw [← hassoc]; exact ht) hinv₂
      · have hb0 : st.buffer = [] := by rw [hst, foldRun_buffer]; rfl
        have hbnl : ∀ ch ∈ st.buffer, (ch == '\n') = false := by
          rw [hb0]
          intro ch hch
          simp at hch
        rw [processChunk_eq sess0 st c hbnl, hb0, List.nil_append,
          buffer_clear_eq st hb0]
        rcases hcc : c with _ | ⟨ch, c₂⟩
        · have hR' : cs'.flatten = '\n' :: streamOf rest := by
            rw [hcc] at hR
            simpa using hR
          have hrunid : runLines sess0 st (splitNl []) = st :=
            forBody_skip sess0 1 st [] true rfl
          rw [hrunid]
          exact ih done rest st hg ht (Or.inr (Or.inl ⟨hst, hR'⟩))
        · have hR2 : ch :: (c₂ ++ cs'.flatten) = '\n' :: streamOf rest := by
            rw [← List.cons_append, ← hcc, ← List.flatten_cons]
            exact hR
          have hch : ch = '\n' := List.head_eq_of_cons_eq hR2
          have hc₂ : c₂ ++ cs'.flatten = streamOf rest := List.tail_eq_of_cons_eq hR2
          subst hch
          rw [splitNl_nl_cons]
          obtain ⟨h2, t2, hx2⟩ : ∃ h2 t2, splitNl c₂ = h2 :: t2 := by
            rcases h : splitNl c₂ with _ | ⟨a, b⟩
            · exact absurd h (splitNl_ne_nil c₂)
            · exact ⟨a, b, rfl⟩
          have hrun2 : runLines sess0 st ([] :: splitNl c₂) =
              runLines sess0 st (splitNl c₂) := by
            rw [hx2, runLines_pair, forBody_skip sess0 1 st [] false rfl]
          rw [hrun2, hst]
          obtain ⟨done₂, rest', hdec₂, hinv₂⟩ :=
            runFrags_to_inv sess0 done rest c₂ cs'.flatten
              (fun x hx => hg x (List.mem_append_right done hx)) hc₂
          have hassoc : done ++ rest = (done ++ done₂) ++ rest' := by
            rw [hdec₂, List.append_assoc]
          rw [hassoc]
          exact ih (done ++ done₂) rest' _ (by rw [← hassoc]; exact hg)
            (by rw [← hassoc]; exact ht) hinv₂
      · have hb0 : st.buffer = [] := by rw [hst, foldRun_buffer]; rfl
        have hbnl : ∀ ch ∈ st.buffer, (ch == '\n') = false := by
          rw [hb0]
          intro ch hch
          simp at hch
        rw [processChunk_eq sess0 st c hbnl, hb0, List.nil_append,
          buffer_clear_eq st hb0, hst]
        have hu : c ++ cs'.flatten = streamOf rest := by
          rw [← List.flatten_cons]
          exact hR
        obtain ⟨done₂, rest', hdec₂, hinv₂⟩ :=
          runFrags_to_inv sess0 done rest c cs'.flatten
            (fun x hx => hg x (List.mem_append_right done hx)) hu
        have hassoc : done ++ rest = (done ++ done₂) ++ rest' := by
          rw [hdec₂, List.append_assoc]
        rw [hassoc]
        exact ih (done ++ done₂) rest' _ (by rw [← hassoc]; exact hg)
          (by rw [← hassoc]; exact ht) hinv₂

/-- The decoded frame sequence is invariant under re-chunking of the wire text,
for streams of well-formed whitespace-free frame lines whose terminal frame (if
any) is last: every chunking lands on the reference per-line fold. -/
theorem split_invariance (sess0 : Option Json) (ls cs : List JStr)
    (hg : ∀ l ∈ ls, goodLineB l = true)
    (ht : ∀ l ∈ ls.dropLast, lineCompletes l = false)
    (hcs : cs.flatten = streamOf ls) :
    processStream sess0 (initLoop sess0) cs = foldRun sess0 (initLoop sess0) ls := by
  have h := streamRun sess0 cs [] ls (initLoop sess0) (by simpa using hg)
    (by simpa using ht) (Or.inr (Or.inr ⟨rfl, hcs⟩))
  simpa using h

/-! ### The buffer always holds already-failed text -/

theorem forBody_buffer_cases (sess0 : Option Json) :
    ∀ fuel raw (st : LoopState) (b : Bool),
      (forBody sess0 fuel st raw b).buffer = st.buffer ∨
      ∃ e, Json.parse ((forBody sess0 fuel st raw b).buffer) = .error e := by
  intro fuel
  induction fuel with
  | zero => intro raw st b; exact Or.inl rfl
  | succ f ih =>
    intro raw st b
    simp only [forBody]
    by_cases hemp : (trimWs raw).isEmpty
    · exact Or.inl (by simp [hemp])
    · simp only [hemp, Bool.false_eq_true, if_false]
      rcases hp : Json.parse (sanitizeLine (trimWs raw)) with e | d
      · simp only [hp]
        cases b with
        | true => exact Or.inr ⟨e, hp⟩
        | false =>
          simp only [Bool.false_eq_true, if_false]
          rcases hf : tryFix (sanitizeLine (trimWs raw)) e with _ | fixedLine
          · exact Or.inl rfl
          · rcases hp2 : Json.parse fixedLine with e2 | d2
            · exact Or.inl (by simp [hp2])
            · simp only [hp2]
              by_cases hrec :
                  (jsTypeIs d2 (jstr "processing_step") || jsTypeIs d2 (jstr "complete")) = true
              · simp only [hrec, if_true]
                exact ih fixedLine st false
              · have hrecf := Bool.eq_false_iff.mpr hrec
                exact Or.inl (by simp [hrecf])
      · simp only [hp]
        exact Or.inl (dispatch_buffer sess0 st d)

theorem runLines_buffer_fail (sess0 : Option Json) :
    ∀ (fs : List JStr) (st : LoopState),
      isOkB (Json.parse st.buffer) = false →
      isOkB (Json.parse (runLines sess0 st fs).buffer) = false := by
  intro fs
  induction fs with
  | nil => intro st h; exact h
  | cons l t ih =>
    intro st h
    cases t with
    | nil =>
      rcases forBody_buffer_cases sess0 2 l st true with hcase | ⟨e, he⟩
      · rw [runLines_single, hcase]
        exact h
      · rw [runLines_single, he]
        rfl
    | cons l2 t2 =>
      rw [runLines_pair]
      apply ih
      rcases forBody_buffer_cases sess0 2 l st false with hcase | ⟨e, he⟩
      · rw [hcase]
        exact h
      · rw [he]
        rfl

theorem processStream_buffer_fail (sess0 : Option Json) :
    ∀ (cs : List JStr) (st : LoopState),
      isOkB (Json.parse st.buffer) = false →
      isOkB (Json.parse (processStream sess0 st cs).buffer) = false := by
  intro cs
  induction cs with
  | nil => intro st h; exact h
  | cons c cs' ih =>
    intro st h
    simp only [processStream]
    by_cases hic : st.isComplete = true
    · simp [hic, h]
    · have hicf : st.isComplete = false := Bool.eq_false_iff.mpr hic
      simp only [hicf, Bool.false_eq_true, if_false]
      apply ih
      unfold processChunk
      apply runLines_buffer_fail
      show isOkB (Json.parse ([] : JStr)) = false
      decide

/-! ### Session-token invariants -/

theorem forBody_session_frames (sess0 : Option Json) :
    ∀ fuel raw (st : LoopState) (b : Bool),
      ((forBody sess0 fuel st raw b).currentSession = st.currentSession ∧
       (forBody sess0 fuel st raw b).frames = st.frames) ∨
      ∃ d, forBody sess0 fuel st raw b = dispatch sess0 st d := by
  intro fuel
  induction fuel with
  | zero => intro raw st b; exact Or.inl ⟨rfl, rfl⟩
  | succ f ih =>
    intro raw st b
    simp only [forBody]
    by_cases hemp : (trimWs raw).isEmpty
    · exact Or.inl ⟨by simp [hemp], by simp [hemp]⟩
    · simp only [hemp, Bool.false_eq_true, if_false]
      rcases hp : Json.parse (sanitizeLine (trimWs raw)) with e | d
      · simp only [hp]
        cases b with
        | true => exact Or.inl ⟨rfl, rfl⟩
        | false =>
          simp only [Bool.false_eq_true, if_false]
          rcases hf : tryFix (sanitizeLine (trimWs raw)) e with _ | fixedLine
          · exact Or.inl ⟨rfl, rfl⟩
          · rcases hp2 : Json.parse fixedLine with e2 | d2
            · exact Or.inl ⟨by simp [hp2], by simp [hp2]⟩
            · simp only [hp2]
              by_cases hrec :
                  (jsTypeIs d2 (jstr "processing_step") || jsTypeIs d2 (jstr "complete")) = true
              · simp only [hrec, if_true]
                exact ih fixedLine st false
              · have hrecf := Bool.eq_false_iff.mpr hrec
                exact Or.inl ⟨by simp [hrecf], by simp [hrecf]⟩
      · simp only [hp]
        exact Or.inr ⟨d, rfl⟩

theorem dispatch_sessInv (sess0 : Option Json) (st : LoopState) (d : Json)
    (hs : jsTruthyOpt sess0 = false)
    (h : st.currentSession = sessFold sess0 st.frames) :
    (dispatch sess0 st d).currentSession = sessFold sess0 (dispatch sess0 st d).frames := by
  rw [dispatch_session_of_falsy sess0 st d hs, dispatch_frames, h]
  unfold sessFold
  rw [List.foldl_append]
  rfl

theorem processStream_session_falsy (sess0 : Option Json) (hs : jsTruthyOpt sess0 = false) :
    ∀ (cs : List JStr) (st : LoopState),
      st.currentSession = sessFold sess0 st.frames →
      (processStream sess0 st cs).currentSession =
        sessFold sess0 (processStream sess0 st cs).frames := by
  have hline : ∀ (fs : List JStr) (st : LoopState),
      st.currentSession = sessFold sess0 st.frames →
      (runLines sess0 st fs).currentSession = sessFold sess0 (runLines sess0 st fs).frames := by
    intro fs
    induction fs with
    | nil => intro st h; exact h
    | cons l t ih =>
      intro st h
      cases t with
      | nil =>
        rw [runLines_single]
        rcases forBody_session_frames sess0 2 l st true with ⟨h1, h2⟩ | ⟨d, hd⟩
        · rw [h1, h2]
          exact h
        · rw [hd]
          exact dispatch_sessInv sess0 st d hs h
      | cons l2 t2 =>
        rw [runLines_pair]
        apply ih
        rcases forBody_session_frames sess0 2 l st false with ⟨h1, h2⟩ | ⟨d, hd⟩
        · rw [h1, h2]
          exact h
        · rw [hd]
          exact dispatch_sessInv sess0 st d hs h
  intro cs
  induction cs with
  | nil => intro st h; exact h
  | cons c cs' ih =>
    intro st h
    simp only [processStream]
    by_cases hic : st.isComplete = true
    · simp [hic, h]
    · have hicf : st.isComplete = false := Bool.eq_false_iff.mpr hic
      simp only [hicf, Bool.false_eq_true, if_false]
      apply ih
      unfold processChunk
      apply hline
      exact h

theorem processStream_session_truthy (sess0 : Option Json) (hs : jsTruthyOpt sess0 = true) :
    ∀ (cs : List JStr) (st : LoopState),
      st.currentSession = sess0 →
      (processStream sess0 st cs).currentSession = sess0 := by
  have hline : ∀ (fs : List JStr) (st : LoopState),
      st.currentSession = sess0 →
      (runLines sess0 st fs).currentSession = sess0 := by
    intro fs
    induction fs with
    | nil => intro st h; exact h
    | cons l t ih =>
      intro st h
      cases t with
      | nil =>
        rw [runLines_single]
        rcases forBody_session_frames sess0 2 l st true with ⟨h1, _⟩ | ⟨d, hd⟩
        · rw [h1]; exact h
        · rw [hd, dispatch_session_of_truthy sess0 st d hs]
          exact h
      | cons l2 t2 =>
        rw [runLines_pair]
        apply ih
        rcases forBody_session_frames sess0 2 l st false with ⟨h1, _⟩ | ⟨d, hd⟩
        · rw [h1]; exact h
        · rw [hd, dispatch_session_of_truthy sess0 st d hs]
          exact h
  intro cs
  induction cs with
  | nil => intro st h; exact h
  | cons c cs' ih =>
    intro st h
    simp only [processStream]
    by_cases hic : st.isComplete = true
    · simp [hic, h]
    · have hicf : st.isComplete = false := Bool.eq_false_iff.mpr hic
      simp only [hicf, Bool.false_eq_true, if_false]
      apply ih
      unfold processChunk
      apply hline
      exact h

theorem sessFold_no_complete (a : Option Json) (t : List Json)
    (h : ∀ x ∈ t, isCompleteFrame x = false) : sessFold a t = a := by
  induction t generalizing a with
  | nil => rfl
  | cons d t ih =>
    have hd : isCompleteFrame d = false := h d (List.mem_cons_self _ _)
    have hstep : sessStep a d = a := by
      unfold sessStep
      rw [show jsTypeIs d (jstr "complete") = false from hd]
      simp
    unfold sessFold at *
    rw [List.foldl_cons, hstep]
    exact ih a (fun x hx => h x (List.mem_cons_of_mem _ hx))

theorem sessFold_of_le_one (sess0 : Option Json) (frames : List Json)
    (h : frames.countP isCompleteFrame ≤ 1) :
    sessFold sess0 frames =
      (match frames.find?
          (fun d => isCompleteFrame d && jsTruthyOpt (jsGet d (jstr "session_id"))) with
       | some d => jsGet d (jstr "session_id")
       | none => sess0) := by
  induction frames generalizing sess0 with
  | nil => rfl
  | cons d t ih =>
    by_cases hc : isCompleteFrame d = true
    · have ht0 : t.countP isCompleteFrame = 0 := by
        rw [List.countP_cons, if_pos hc] at h
        omega
      have hnone : ∀ x ∈ t, isCompleteFrame x = false := by
        intro x hx
        have := List.countP_eq_zero.mp ht0 x hx
        simpa using this
      have hfind : t.find?
          (fun d => isCompleteFrame d && jsTruthyOpt (jsGet d (jstr "session_id"))) = none :=
        List.find?_eq_none.mpr (fun x hx => by simp [hnone x hx])
      by_cases hs : jsTruthyOpt (jsGet d (jstr "session_id")) = true
      · have hstep : sessStep sess0 d = jsGet d (jstr "session_id") := by
          have hc2 : jsTypeIs d (jstr "complete") = true := hc
          unfold sessStep
          rw [hc2, hs]
          rfl
        unfold sessFold
        rw [List.foldl_cons]
        show sessFold (sessStep sess0 d) t = _
        rw [sessFold_no_complete _ t hnone, hstep, List.find?_cons_of_pos _ (by simp [hc, hs])]
      · have hsf : jsTruthyOpt (jsGet d (jstr "session_id")) = false :=
          Bool.eq_false_iff.mpr hs
        have hstep : sessStep sess0 d = sess0 := by
          have hc2 : jsTypeIs d (jstr "complete") = true := hc
          unfold sessStep
          rw [hc2, hsf]
          simp
        unfold sessFold
        rw [List.foldl_cons]
        show sessFold (sessStep sess0 d) t = _
        rw [sessFold_no_complete _ t hnone, hstep,
          List.find?_cons_of_neg _ (by simp [hsf]), hfind]
    · have hcf : isCompleteFrame d = false := Bool.eq_false_iff.mpr hc
      have hcount : t.countP isCompleteFrame ≤ 1 := by
        rw [List.countP_cons] at h
        simp [hcf] at h
        omega
      have hstep : sessStep sess0 d = sess0 := by
        have hc2 : jsTypeIs d (jstr "complete") = false := hcf
        unfold sessStep
        rw [hc2]
        simp
      unfold sessFold
      rw [List.foldl_cons]
      show sessFold (sessStep sess0 d) t = _
      rw [hstep, List.find?_cons_of_neg _ (by simp [hcf])]
      exact ih sess0 hcount

/-! ### Parser inversion: a parsed object starts at an object-open character -/

/-- A successful `.value` run yields an object only when the first
non-whitespace character is the object-open character. -/
theorem parseRun_value_obj (fuel : Nat) (t : JStr) (p : Nat) (fs : List (JStr × Json))
    (rest : JStr) (q : Nat)
    (h : parseRun fuel .value t p = .ok (.val (.obj fs), rest, q)) :
    (skipWS t p).1.head? = some '{' := by
  match fuel with
  | 0 => simp [parseRun] at h
  | f + 1 =>
  simp only [parseRun] at h
  rcases hsk : skipWS t p with ⟨s', p'⟩
  rw [hsk] at h
  dsimp only at h
  split at h
  all_goals first
    | ((try rw [hsk]); rfl)
    | (exfalso; simp at h)
    | (exfalso; split at h <;> (try split at h) <;> simp at h)
    | skip
  exfalso
  split at h
  · split at h <;> simp at h
  · simp at h

/-- `skipWS` drops exactly the leading whitespace. -/
theorem skipWS_fst (s : JStr) : ∀ p, (skipWS s p).1 = lstripWs s := by
  induction s with
  | nil => intro p; rfl
  | cons c r ih =>
    intro p
    by_cases h : isJsWS c
    · simp [skipWS, h, lstripWs, List.dropWhile, ih]
    · simp [skipWS, h, lstripWs, List.dropWhile]

/-- A trimmed text has no leading whitespace left to strip. -/
theorem lstripWs_trimWs (s : JStr) : lstripWs (trimWs s) = trimWs s := by
  unfold trimWs
  rw [lstripWs_idem]

/-- If `JSON.parse` returns an object, the trimmed input starts with the
object-open character. -/
theorem parse_obj_head (s : JStr) (fs : List (JStr × Json))
    (h : Json.parse s = .ok (.obj fs)) : (trimWs s).head? = some '{' := by
  unfold Json.parse Json.parseTop at h
  rcases hv : parseValue (3 * (trimWs s).length + 8) (trimWs s) 1 with e | ⟨v, rest, p⟩
  · rw [hv] at h; simp at h
  · rw [hv] at h
    dsimp only at h
    have hv2 : v = .obj fs := by
      rcases hw : skipWS rest p with ⟨s2, p2⟩
      rw [hw] at h
      rcases s2 with _ | ⟨c, r⟩
      · simpa using h
      · simp at h
    subst hv2
    unfold parseValue at hv
    rcases hr : parseRun (3 * (trimWs s).length + 8) .value (trimWs s) 1 with e | ⟨pr, rest2, p2⟩
    · rw [hr] at hv; simp at hv
    · rw [hr] at hv
      rcases pr with v2 | fs2 | es
      · simp at hv
        obtain ⟨h1, h2, h3⟩ := hv
        rw [h1] at hr
        have hobj := parseRun_value_obj (3 * (trimWs s).length + 8) (trimWs s) 1 fs rest2 p2 hr
        rw [skipWS_fst, lstripWs_trimWs] at hobj
        exact hobj
      · simp at hv
      · simp at hv

/-- A text that parses to an object re-parses identically after the trim and
sanitize steps the line loop applies on reprocessing (Index.tsx 1428, 1433). -/
theorem parse_sanitized_trim (l : JStr) (fs : List (JStr × Json))
    (h : Json.parse l = .ok (.obj fs)) :
    Json.parse (sanitizeLine (trimWs l)) = .ok (.obj fs) := by
  have hh : (trimWs l).head? = some '{' := parse_obj_head l fs h
  rw [sanitizeLine_of_head _ hh]
  show Json.parseTop (trimWs (trimWs l)) = _
  rw [trimWs_idem]
  exact h

/-- A value whose `type` field strictly equals a string is an object. -/
theorem recognized_obj (d : Json) (t : JStr) (h : jsTypeIs d t = true) :
    ∃ fs, d = .obj fs := by
  cases d <;> simp [jsTypeIs, jsGet] at h
  exact ⟨_, rfl⟩

/-! ### The recovery trace: each strategy at most once, in the fixed order -/

/-- One unfolding of the instrumented scan. -/
theorem lineScan_succ (fuel : Nat) (raw : JStr) :
    lineScan (fuel + 1) raw =
      (let t := trimWs raw
       if t.isEmpty then (none, [])
       else
         let tr0 : List Strategy := if t.head? != some '{' then [.prefixTrim] else []
         let line := sanitizeLine t
         match Json.parse line with
         | .ok d => (some d, tr0)
         | .error err =>
           let tr1 : List Strategy :=
             if errHasColumn err then
               if err.kind == .unterminatedString then [.closeQuote]
               else if err.kind == .unexpectedChar then [.excise]
               else []
             else []
           match tryFix line err with
           | some fixedLine =>
             (match Json.parse fixedLine with
              | .ok d =>
                if jsTypeIs d (jstr "processing_step") || jsTypeIs d (jstr "complete") then
                  match lineScan fuel fixedLine with
                  | (res, tr') => (res, tr0 ++ tr1 ++ tr')
                else (none, tr0 ++ tr1)
              | .error _ => (none, tr0 ++ tr1))
           | none => (none, tr0 ++ tr1)) := rfl

/-- On a substituted repaired line the scan succeeds at once: the repaired line
parses, stays fixed under trim-and-sanitize, and attempts no further strategy. -/
theorem scan1_trace_nil (l : JStr) (fs : List (JStr × Json))
    (h : Json.parse l = .ok (.obj fs)) : (lineScan 1 l).2 = [] := by
  have hh := parse_obj_head l fs h
  have hp := parse_sanitized_trim l fs h
  by_cases hemp : (trimWs l).isEmpty
  · simp [lineScan, hemp]
  · simp [lineScan, hemp, hp, hh]

/-- The concatenation of one optional prefix-trim mark and one optional repair
mark is a sublist of the fixed strategy order. -/
theorem subTriple (tr0 tr1 : List Strategy)
    (h0 : tr0 = [] ∨ tr0 = [.prefixTrim])
    (h1 : tr1 = [] ∨ tr1 = [.closeQuote] ∨ tr1 = [.excise]) :
    (tr0 ++ tr1).Sublist [.prefixTrim, .closeQuote, .excise] := by
  rcases h0 with h0 | h0 <;> rcases h1 with h1 | h1 | h1 <;> subst h0 <;> subst h1 <;> decide

/-- The strategies a line attempts form a sublist of
`[prefixTrim, closeQuote, excise]`: each at most once, in that order. -/
theorem lineScan_trace_sub (raw : JStr) :
    ((lineScan 2 raw).2).Sublist [.prefixTrim, .closeQuote, .excise] := by
  have h0 : (if (trimWs raw).head? != some '{' then ([Strategy.prefixTrim]) else []) = [] ∨
      (if (trimWs raw).head? != some '{' then ([Strategy.prefixTrim]) else []) = [.prefixTrim] := by
    by_cases hh : (trimWs raw).head? != some '{' <;> simp [hh]
  rw [show (2:Nat) = 1 + 1 from rfl, lineScan_succ]
  by_cases hemp : (trimWs raw).isEmpty
  · simp [hemp]
  · simp only [hemp, Bool.false_eq_true, if_false, errHasColumn, if_true]
    rcases hp : Json.parse (sanitizeLine (trimWs raw)) with err | d
    · simp only [hp]
      rcases hfx : tryFix (sanitizeLine (trimWs raw)) err with _ | fixedLine
      · simp only [hfx]
        refine subTriple _ _ h0 ?_
        by_cases h1 : (err.kind == JErrKind.unterminatedString) = true
        · simp [h1]
        · by_cases h2 : (err.kind == JErrKind.unexpectedChar) = true <;> simp [h1, h2]
      · simp only [hfx]
        rcases hf : Json.parse fixedLine with e2 | d2
        · simp only [hf]
          refine subTriple _ _ h0 ?_
          by_cases h1 : (err.kind == JErrKind.unterminatedString) = true
          · simp [h1]
          · by_cases h2 : (err.kind == JErrKind.unexpectedChar) = true <;> simp [h1, h2]
        · simp only [hf]
          by_cases hrec : (jsTypeIs d2 (jstr "processing_step") ||
              jsTypeIs d2 (jstr "complete")) = true
          · obtain ⟨fs, rfl⟩ : ∃ fs, d2 = .obj fs := by
              rcases (Bool.or_eq_true _ _).mp hrec with hx | hx
              · exact recognized_obj _ _ hx
              · exact recognized_obj _ _ hx
            simp only [hrec, if_true]
            rcases hsc : lineScan 1 fixedLine with ⟨res, tr⟩
            have htr : tr = [] := by
              have h9 := scan1_trace_nil fixedLine fs hf
              rw [hsc] at h9
              exact h9
            subst htr
            simp only [List.append_nil]
            refine subTriple _ _ h0 ?_
            by_cases h1 : (err.kind == JErrKind.unterminatedString) = true
            · simp [h1]
            · by_cases h2 : (err.kind == JErrKind.unexpectedChar) = true <;> simp [h1, h2]
          · have hrecf := Bool.eq_false_iff.mpr hrec
            simp only [hrecf, Bool.false_eq_true, if_false]
            refine subTriple _ _ h0 ?_
            by_cases h1 : (err.kind == JErrKind.unterminatedString) = true
            · simp [h1]
            · by_cases h2 : (err.kind == JErrKind.unexpectedChar) = true <;> simp [h1, h2]
    · simp only [hp]
      rcases h0 with h0 | h0 <;> rw [h0]
      · exact List.nil_sublist _
      · decide

/-! ### The turn-level wrapper `processChat` -/

/-- A stream that never delivers a terminal frame ends the turn with the
incomplete-stream error message and a cleared progress list. -/
theorem processChat_stream_fail (w : World) (q : JStr) (cs : List JStr)
    (hw : w.processing = false)
    (hr : (processStream w.chat.currentSession (initLoop w.chat.currentSession)
            cs).responseData = none) :
    processChat w q (.stream cs) =
      { chat := { messages := w.chat.messages ++
                    [botMessage w.nextId msgIncomplete false none none],
                  isTyping := false, files := [], canvasContent := w.chat.canvasContent,
                  currentSession := (processStream w.chat.currentSession
                    (initLoop w.chat.currentSession) cs).currentSession,
                  processingSteps := [] },
        processing := false, nextId := w.nextId + 1 } := by
  simp only [processChat, hw, Bool.false_eq_true, if_false]
  rw [hr]
  rfl

/-- A stream that delivers a terminal frame ends the turn with the answer message
carrying the collected steps (last one marked completed) and the citations, the
session copied back, the progress list cleared and the gate released. -/
theorem processChat_stream_ok (w : World) (q : JStr) (cs : List JStr) (d : Json)
    (hw : w.processing = false)
    (hr : (processStream w.chat.currentSession (initLoop w.chat.currentSession)
            cs).responseData = some d) :
    processChat w q (.stream cs) =
      { chat := { messages := w.chat.messages ++
                    [botMessage w.nextId (respContent d) (hasCitsOf d)
                      (some (markLastCompleted (processStream w.chat.currentSession
                        (initLoop w.chat.currentSession) cs).collectedSteps))
                      (if hasCitsOf d then jsGet d (jstr "citation_array") else none)],
                  isTyping := false, files := [], canvasContent := w.chat.canvasContent,
                  currentSession := (processStream w.chat.currentSession
                    (initLoop w.chat.currentSession) cs).currentSession,
                  processingSteps := [] },
        processing := false, nextId := w.nextId + 1 } := by
  simp only [processChat, hw, Bool.false_eq_true, if_false]
  rw [hr]
  rfl

/-! ### The final-step marking -/

/-- Marking the final step preserves every step message, in order. -/
theorem markLast_messages (steps : List PStep) :
    (markLastCompleted steps).map (fun s => s.message) = steps.map (fun s => s.message) := by
  rcases e : steps.getLast? with _ | fin
  · unfold markLastCompleted; rw [e]
  · have hne : steps ≠ [] := by intro hx; subst hx; simp at e
    have hfin : steps.getLast hne = fin := by
      rw [← Option.some_inj, ← List.getLast?_eq_getLast steps hne, e]
    unfold markLastCompleted
    rw [e]
    conv_rhs => rw [← List.dropLast_append_getLast hne]
    rw [List.map_append, List.map_append, hfin]
    rfl

/-- Marking the final step leaves every earlier step record untouched. -/
theorem markLast_dropLast (steps : List PStep) :
    (markLastCompleted steps).dropLast = steps.dropLast := by
  rcases e : steps.getLast? with _ | fin
  · unfold markLastCompleted; rw [e]
  · unfold markLastCompleted
    rw [e, List.dropLast_concat]

/-- After the marking the final step is in the completed state. -/
theorem markLast_last_completed (steps : List PStep) (h : steps ≠ []) :
    (markLastCompleted steps).getLast?.map (fun s => s.completed) = some (some true) := by
  rcases e : steps.getLast? with _ | fin
  · exact absurd (List.getLast?_eq_none_iff.mp e) h
  · unfold markLastCompleted
    rw [e, List.getLast?_concat]
    rfl

/-- Marking the final step keeps the number of steps. -/
theorem markLast_length (steps : List PStep) :
    (markLastCompleted steps).length = steps.length := by
  rcases e : steps.getLast? with _ | fin
  · unfold markLastCompleted; rw [e]
  · have hne : steps ≠ [] := by intro hx; subst hx; simp at e
    unfold markLastCompleted
    rw [e]
    have hpos : 0 < steps.length := List.length_pos.mpr hne
    simp [List.length_dropLast]
    omega

/-! ### The claims -/

/-- C1 (corrected).  Chunk-split invariance holds for streams of well-formed
frame lines that are whitespace-free and prefix-parse-free (`goodLineB`), with the
terminal frame last: however the chunk boundaries fall (mid-frame boundaries
included), the decoded frame sequence equals that of the unsplit stream.  The
original claim's unrestricted form, over all valid streams and all splits
including splits inside a string literal, is refuted by `C1_counter_inString`: the
per-iteration `trim()` of the buffered partial frame erases a frame-internal space
at a mid-string chunk boundary, so the reassembled frame decodes differently. -/
theorem C1_split_invariance_wsFree (sess0 : Option Json) (ls cs : List JStr)
    (hg : ∀ l ∈ ls, goodLineB l = true)
    (ht : ∀ l ∈ ls.dropLast, lineCompletes l = false)
    (hcs : cs.flatten = streamOf ls) :
    (processStream sess0 (initLoop sess0) cs).frames =
      (processStream sess0 (initLoop sess0) [streamOf ls]).frames := by
  rw [split_invariance sess0 ls cs hg ht hcs,
    split_invariance sess0 ls [streamOf ls] hg ht (by simp)]

theorem C1_witness :
    (∀ l ∈ [c1line], goodLineB l = true) ∧
    (∀ l ∈ ([c1line] : List JStr).dropLast, lineCompletes l = false) ∧
    ([c1chunkA, c1chunkB] : List JStr).flatten = streamOf [c1line] ∧
    (processStream none (initLoop none) [c1chunkA, c1chunkB]).frames =
      (processStream none (initLoop none) [streamOf [c1line]]).frames :=
  ⟨by decide, by decide, by decide,
    C1_split_invariance_wsFree none [c1line] [c1chunkA, c1chunkB] (by decide) (by decide)
      (by decide)⟩

theorem C1_counter_inString :
    isOkB (Json.parse c1exLine) = true ∧
    c1exWhole = streamOf [c1exLine] ∧
    ([c1exChunkA, c1exChunkB] : List JStr).flatten = c1exWhole ∧
    (processStream none (initLoop none) [c1exChunkA, c1exChunkB]).frames ≠
      (processStream none (initLoop none) [c1exWhole]).frames := by
  refine ⟨by decide, by decide, by decide, ?_⟩
  intro h
  have h2 := congrArg (List.map frameResp) h
  have hL : (processStream none (initLoop none) [c1exChunkA, c1exChunkB]).frames.map frameResp
      = [some (jstr "ab")] := by decide
  have hR : (processStream none (initLoop none) [c1exWhole]).frames.map frameResp
      = [some (jstr "a b")] := by decide
  rw [hL, hR] at h2
  exact absurd h2 (by decide)

/-- C2 (corrected).  For the missing-closing-quote frame followed by a well-formed
terminal frame, under every chunk split of the wire text: the well-formed frame is
decoded intact (it becomes the single dispatched frame and the response data), and
the split does not corrupt it.  The original claim's other half — that the
recovery engine recovers the malformed frame's recognizable fields — fails: the
quote-append repair cannot complete the object (the closing brace is still
missing), so the malformed frame contributes nothing (`collectedSteps = []`);
`C2_counter_noRecovery` exhibits this. -/
theorem C2_malformed_then_wellformed (cs : List JStr)
    (hcs : cs.flatten = streamOf [c2bad, c2good]) :
    (processStream none (initLoop none) cs).frames = [c2goodVal] ∧
    (processStream none (initLoop none) cs).responseData = some c2goodVal ∧
    (processStream none (initLoop none) cs).collectedSteps = [] := by
  rw [split_invariance none [c2bad, c2good] cs (by decide) (by decide) hcs]
  exact ⟨rfl, rfl, rfl⟩

theorem C2_witness :
    ([c2bad.take 10, c2bad.drop 10 ++ '\n' :: c2good.take 7,
        c2good.drop 7 ++ ['\n']] : List JStr).flatten = streamOf [c2bad, c2good] ∧
    (processStream none (initLoop none)
        [c2bad.take 10, c2bad.drop 10 ++ '\n' :: c2good.take 7,
          c2good.drop 7 ++ ['\n']]).frames = [c2goodVal] :=
  ⟨by decide,
    (C2_malformed_then_wellformed
      [c2bad.take 10, c2bad.drop 10 ++ '\n' :: c2good.take 7, c2good.drop 7 ++ ['\n']]
      (by decide)).1⟩

theorem C2_counter_noRecovery :
    isOkB (Json.parse c2bad) = false ∧
    jsTypeIs c2goodVal (jstr "complete") = true ∧
    (processStream none (initLoop none) [streamOf [c2bad, c2good]]).frames.map frameKind
      = [some (jstr "complete")] ∧
    (processStream none (initLoop none) [streamOf [c2bad, c2good]]).collectedSteps = [] := by
  exact ⟨by decide, by decide, by decide, rfl⟩

/-- C3 (confirmed).  While a turn is in flight (`processing = true`), a direct
submission is a pure no-op on the whole state, and the `addMessage` route starts
no request (the trigger returns `false`) and leaves the progress-step list and the
in-flight gate unchanged. -/
theorem C3_busy_submit_noop (w : World) (q content : JStr) (f : FetchOutcome)
    (files : Option (List FileObj)) (hc : Bool) (ps : Option (List PStep))
    (cits : Option Json) (h : w.processing = true) :
    processChat w q f = w ∧
    (addMessageT w content .user .text files hc ps cits f).2 = false ∧
    (addMessageT w content .user .text files hc ps cits f).1.chat.processingSteps =
      w.chat.processingSteps ∧
    (addMessageT w content .user .text files hc ps cits f).1.processing = w.processing := by
  refine ⟨by simp [processChat, h], ?_, ?_, ?_⟩ <;>
    simp [addMessageT, appendMessage, h]

theorem C3_witness :
    ({ w9 with processing := true } : World).processing = true ∧
    processChat { w9 with processing := true } (jstr "again") (.stream [c8chunk]) =
      { w9 with processing := true } ∧
    (addMessageT { w9 with processing := true } (jstr "again") .user .text none false
        none none (.stream [c8chunk])).2 = false := by
  have h := C3_busy_submit_noop { w9 with processing := true } (jstr "again") (jstr "again")
    (.stream [c8chunk]) none false none none rfl
  exact ⟨rfl, h.1, h.2.1⟩

/-- C4 (confirmed).  A stream that ends without a terminal frame appends exactly
one synthesized bot message carrying the incomplete-stream text, with the typing
indicator off, the transient progress list cleared and no progress notes attached
to the appended message; the text differs from the transport-failure, empty-body
and generic error messages. -/
theorem C4_incomplete_stream (w : World) (q : JStr) (cs : List JStr)
    (hw : w.processing = false)
    (hr : (processStream w.chat.currentSession (initLoop w.chat.currentSession)
            cs).responseData.isNone = true) :
    processChat w q (.stream cs) =
      { chat := { messages := w.chat.messages ++
                    [botMessage w.nextId msgIncomplete false none none],
                  isTyping := false, files := [], canvasContent := w.chat.canvasContent,
                  currentSession := (processStream w.chat.currentSession
                    (initLoop w.chat.currentSession) cs).currentSession,
                  processingSteps := [] },
        processing := false, nextId := w.nextId + 1 } ∧
    (botMessage w.nextId msgIncomplete false none none).processingSteps = none ∧
    msgIncomplete ≠ msgTransport ∧ msgIncomplete ≠ msgEmpty ∧ msgIncomplete ≠ msgGeneric := by
  refine ⟨processChat_stream_fail w q cs hw (Option.isNone_iff_eq_none.mp hr),
    rfl, by decide, by decide, by decide⟩

theorem C4_witness :
    w0.processing = false ∧
    (processStream w0.chat.currentSession (initLoop w0.chat.currentSession)
      [c4chunk]).responseData.isNone = true ∧
    processChat w0 (jstr "q") (.stream [c4chunk]) =
      { chat := { messages := w0.chat.messages ++
                    [botMessage w0.nextId msgIncomplete false none none],
                  isTyping := false, files := [], canvasContent := w0.chat.canvasContent,
                  currentSession := (processStream w0.chat.currentSession
                    (initLoop w0.chat.currentSession) [c4chunk]).currentSession,
                  processingSteps := [] },
        processing := false, nextId := w0.nextId + 1 } :=
  ⟨rfl, by decide, (C4_incomplete_stream w0 (jstr "q") [c4chunk] rfl (by decide)).1⟩

/-- C5 (confirmed, observationally).  At stream end the pending buffer only ever
holds text whose parse attempt has already failed (every line is parsed once when
it is buffered, at 1447/1487), so the final parse attempt the spec describes is a
no-op: performing it changes nothing but the discarded buffer field.  The source's
read loop (1398-1401) simply breaks on `done`; the spec's described behaviour and
the code agree on every observable of the turn. -/
theorem C5_final_buffer_attempt (sess0 : Option Json) (cs : List JStr) :
    isOkB (Json.parse (processStream sess0 (initLoop sess0) cs).buffer) = false ∧
    specFinalAttempt sess0 (processStream sess0 (initLoop sess0) cs) =
      { processStream sess0 (initLoop sess0) cs with buffer := [] } := by
  have hP : isOkB (Json.parse (processStream sess0 (initLoop sess0) cs).buffer) = false :=
    processStream_buffer_fail sess0 cs (initLoop sess0)
      (by show isOkB (Json.parse ([] : JStr)) = false; decide)
  refine ⟨hP, ?_⟩
  unfold specFinalAttempt
  by_cases hb : (processStream sess0 (initLoop sess0) cs).buffer.isEmpty
  · rw [if_pos hb]
    have hbe : (processStream sess0 (initLoop sess0) cs).buffer = [] :=
      List.isEmpty_iff.mp hb
    conv_rhs => rw [← hbe]
  · rw [if_neg hb]
    rcases hp : Json.parse (processStream sess0 (initLoop sess0) cs).buffer with e | d
    · rfl
    · rw [hp] at hP
      simp [isOkB] at hP

/-- C6 (confirmed).  Per frame, the strategies attempted form a sublist of
`[prefixTrim, closeQuote, excise]` — each at most once, in that fixed order,
stopping at the first success with a recognized `type` (a repaired and recognized
line re-parses identically, so its reprocessing attempts no further strategy); the
loop body acts as dispatch-on-success / skip-on-failure, and a discarded frame
leaves the rest of the run — including a later terminal frame — exactly as if the
frame had not been there. -/
theorem C6_recovery_discipline (sess0 : Option Json) (st : LoopState) (raw : JStr) :
    ((lineScan 2 raw).2).Sublist [.prefixTrim, .closeQuote, .excise] ∧
    forBody sess0 2 st raw false =
      (match (lineScan 2 raw).1 with
       | some d => dispatch sess0 st d
       | none => st) ∧
    ((lineScan 2 raw).1 = none →
      ∀ ls, foldRun sess0 st (raw :: ls) = foldRun sess0 st ls) := by
  refine ⟨lineScan_trace_sub raw, forBody_eq_scan sess0 2 raw st, ?_⟩
  intro h ls
  simp only [foldRun, List.foldl_cons]
  rw [forBody_eq_scan sess0 2 raw st, h]

theorem C6_witness :
    (lineScan 2 (jstr "@@")).1 = none ∧
    ((lineScan 2 (jstr "@@")).2).Sublist [.prefixTrim, .closeQuote, .excise] ∧
    foldRun none (initLoop none) [jstr "@@", c2good] =
      foldRun none (initLoop none) [c2good] := by
  have h := C6_recovery_discipline none (initLoop none) (jstr "@@")
  exact ⟨by rfl, h.1, h.2.2 (by rfl) [c2good]⟩

/-- C7 (confirmed).  A truthy session is sticky: no later frame changes it, and
every subsequent request body carries it as `session_id` alongside `user_query`.
A turn that starts without a session adopts the `session_id` of the first terminal
frame that carries a truthy one (stated for traces with at most one terminal
frame, the wire contract's invariant; the guard at 1474 reads the closure-captured
turn-start session, so within one turn a second terminal frame would overwrite —
across turns the stickiness is unconditional). -/
theorem C7_session_sticky (sess0 : Option Json) (cs : List JStr) (q : JStr) :
    (jsTruthyOpt sess0 = true →
      (processStream sess0 (initLoop sess0) cs).currentSession = sess0) ∧
    (jsTruthyOpt sess0 = true →
      requestBodyOf sess0 q =
        [(jstr "user_query", .str q), (jstr "session_id", sess0.getD .null)]) ∧
    (jsTruthyOpt sess0 = false →
      (processStream sess0 (initLoop sess0) cs).frames.countP isCompleteFrame ≤ 1 →
      (processStream sess0 (initLoop sess0) cs).currentSession =
        (match (processStream sess0 (initLoop sess0) cs).frames.find?
            (fun d => isCompleteFrame d && jsTruthyOpt (jsGet d (jstr "session_id"))) with
         | some d => jsGet d (jstr "session_id")
         | none => sess0)) := by
  refine ⟨?_, ?_, ?_⟩
  · intro h
    exact processStream_session_truthy sess0 h cs (initLoop sess0) rfl
  · intro h
    unfold requestBodyOf
    rw [if_pos h]
    rfl
  · intro h hcount
    rw [processStream_session_falsy sess0 h cs (initLoop sess0) rfl]
    exact sessFold_of_le_one sess0 _ hcount

theorem C7_witness :
    jsTruthyOpt (some (Json.str (jstr "abc123"))) = true ∧
    (processStream (some (Json.str (jstr "abc123")))
        (initLoop (some (Json.str (jstr "abc123")))) [c8chunk]).currentSession =
      some (Json.str (jstr "abc123")) ∧
    requestBodyOf (some (Json.str (jstr "abc123"))) (jstr "next") =
      [(jstr "user_query", .str (jstr "next")),
       (jstr "session_id", Json.str (jstr "abc123"))] ∧
    jsTruthyOpt (none : Option Json) = false ∧
    (processStream none (initLoop none) [c8chunk]).frames.countP isCompleteFrame ≤ 1 ∧
    (processStream none (initLoop none) [c8chunk]).currentSession =
      (match (processStream none (initLoop none) [c8chunk]).frames.find?
          (fun d => isCompleteFrame d && jsTruthyOpt (jsGet d (jstr "session_id"))) with
       | some d => jsGet d (jstr "session_id")
       | none => none) := by
  have h1 := C7_session_sticky (some (Json.str (jstr "abc123"))) [c8chunk] (jstr "next")
  have h2 := C7_session_sticky (none : Option Json) [c8chunk] (jstr "next")
  exact ⟨by decide, h1.1 (by decide), h1.2.1 (by decide), by decide, by decide,
    h2.2.2 (by decide) (by decide)⟩

/-- Whatever the stream outcome, an idle turn appends exactly one bot message. -/
theorem processChat_stream_appends_one (w : World) (q : JStr) (cs : List JStr)
    (hw : w.processing = false) :
    ∃ m, (processChat w q (.stream cs)).chat.messages = w.chat.messages ++ [m] := by
  rcases hr : (processStream w.chat.currentSession (initLoop w.chat.currentSession)
      cs).responseData with _ | d
  · exact ⟨_, by rw [processChat_stream_fail w q cs hw hr]⟩
  · exact ⟨_, by rw [processChat_stream_ok w q cs d hw hr]⟩

/-- C8 (corrected).  On a terminal frame the bot message is built with the full
ordered progress list attached and the last step marked completed (messages and
earlier step records preserved exactly), the citations attached when present, the
transient list cleared and the gate released; the retained session is the loop's
final one.  The original claim's stronger form — every attached step is in the
completed state — is false: only the last step is marked (`completed = some true`);
the earlier steps keep `completed` absent, as `C8_counter_firstStep` shows on the
two-progress-frame scenario stream. -/
theorem C8_finalize (w : World) (q : JStr) (cs : List JStr) (d : Json)
    (hw : w.processing = false)
    (hr : (processStream w.chat.currentSession (initLoop w.chat.currentSession)
            cs).responseData = some d) :
    processChat w q (.stream cs) =
      { chat := { messages := w.chat.messages ++
                    [botMessage w.nextId (respContent d) (hasCitsOf d)
                      (some (markLastCompleted (processStream w.chat.currentSession
                        (initLoop w.chat.currentSession) cs).collectedSteps))
                      (if hasCitsOf d then jsGet d (jstr "citation_array") else none)],
                  isTyping := false, files := [], canvasContent := w.chat.canvasContent,
                  currentSession := (processStream w.chat.currentSession
                    (initLoop w.chat.currentSession) cs).currentSession,
                  processingSteps := [] },
        processing := false, nextId := w.nextId + 1 } ∧
    (markLastCompleted (processStream w.chat.currentSession (initLoop w.chat.currentSession)
        cs).collectedSteps).map (fun s => s.message) =
      ((processStream w.chat.currentSession (initLoop w.chat.currentSession)
        cs).collectedSteps).map (fun s => s.message) ∧
    (markLastCompleted (processStream w.chat.currentSession (initLoop w.chat.currentSession)
        cs).collectedSteps).dropLast =
      ((processStream w.chat.currentSession (initLoop w.chat.currentSession)
        cs).collectedSteps).dropLast ∧
    ((processStream w.chat.currentSession (initLoop w.chat.currentSession)
        cs).collectedSteps ≠ [] →
      (markLastCompleted (processStream w.chat.currentSession (initLoop w.chat.currentSession)
          cs).collectedSteps).getLast?.map (fun s => s.completed) = some (some true)) :=
  ⟨processChat_stream_ok w q cs d hw hr, markLast_messages _, markLast_dropLast _,
    fun h => markLast_last_completed _ h⟩

theorem C8_witness :
    w0.processing = false ∧
    (processStream w0.chat.currentSession (initLoop w0.chat.currentSession)
        [c8chunk]).responseData =
      some (.obj [(jstr "type", .str (jstr "complete")),
                  (jstr "response", .str (jstr "Here is the answer")),
                  (jstr "session_id", .str (jstr "abc123"))]) ∧
    (markLastCompleted (processStream w0.chat.currentSession (initLoop w0.chat.currentSession)
        [c8chunk]).collectedSteps).getLast?.map (fun s => s.completed) = some (some true) ∧
    (processChat w0 (jstr "q") (.stream [c8chunk])).chat.currentSession =
      some (.str (jstr "abc123")) ∧
    requestBodyOf (processChat w0 (jstr "q") (.stream [c8chunk])).chat.currentSession
        (jstr "next") =
      [(jstr "user_query", .str (jstr "next")), (jstr "session_id", .str (jstr "abc123"))] := by
  have h := C8_finalize w0 (jstr "q") [c8chunk]
    (.obj [(jstr "type", .str (jstr "complete")),
           (jstr "response", .str (jstr "Here is the answer")),
           (jstr "session_id", .str (jstr "abc123"))]) rfl rfl
  refine ⟨rfl, rfl, h.2.2.2 ?_, ?_, ?_⟩
  · intro hx
    exact absurd (congrArg List.length hx) (by decide)
  · rw [h.1]
    rfl
  · rw [h.1]
    rfl

theorem C8_counter_firstStep :
    ((processChat w0 (jstr "q") (.stream [c8chunk])).chat.messages.map
        (fun m => m.processingSteps.map
          (fun l => l.map (fun s => s.completed == some true)))) = [some [false, true]] := by
  decide

/-- C9 (confirmed).  `regenerate` with an id not in history, or with a bot
message's id, changes nothing; with a user turn's id it truncates history to just
after that turn, clears the transient progress list and resubmits exactly that
turn's content, and (for any stream outcome, when idle) exactly one new bot turn
replaces the truncated tail. -/
theorem C9_regenerate (w : World) (messageId : Nat) (f : FetchOutcome) (i : Nat)
    (m : Message) (cs : List JStr) :
    (w.chat.messages.findIdx? (fun x => x.id == messageId) = none →
      regenerateMessage w messageId f = w) ∧
    (w.chat.messages.findIdx? (fun x => x.id == messageId) = some i →
      w.chat.messages[i]? = some m →
      (m.sender != .user) = true →
      regenerateMessage w messageId f = w) ∧
    (w.chat.messages.findIdx? (fun x => x.id == messageId) = some i →
      w.chat.messages[i]? = some m →
      (m.sender != .user) = false →
      regenerateMessage w messageId f =
        processChat { w with chat := { w.chat with messages := w.chat.messages.take (i + 1), processingSteps := ([] : List PStep) } } m.content f) ∧
    (w.chat.messages.findIdx? (fun x => x.id == messageId) = some i →
      w.chat.messages[i]? = some m →
      (m.sender != .user) = false →
      w.processing = false →
      ∃ bm, (regenerateMessage w messageId (.stream cs)).chat.messages =
        w.chat.messages.take (i + 1) ++ [bm]) := by
  have key : ∀ g : FetchOutcome,
      w.chat.messages.findIdx? (fun x => x.id == messageId) = some i →
      w.chat.messages[i]? = some m →
      (m.sender != .user) = false →
      regenerateMessage w messageId g =
        processChat { w with chat := { w.chat with messages := w.chat.messages.take (i + 1), processingSteps := ([] : List PStep) } } m.content g := by
    intro g h1 h2 h3
    unfold regenerateMessage
    rw [h1]
    dsimp only
    rw [h2]
    dsimp only
    rw [h3]
    simp
  refine ⟨?_, ?_, key f, ?_⟩
  · intro h
    unfold regenerateMessage
    rw [h]
  · intro h1 h2 h3
    unfold regenerateMessage
    rw [h1]
    dsimp only
    rw [h2]
    dsimp only
    rw [h3]
    simp
  · intro h1 h2 h3 h4
    rw [key (.stream cs) h1 h2 h3]
    obtain ⟨bm, hbm⟩ := processChat_stream_appends_one
      { w with chat := { w.chat with messages := w.chat.messages.take (i + 1), processingSteps := ([] : List PStep) } } m.content cs h4
    exact ⟨bm, by rw [hbm]⟩

theorem C9_witness :
    w9.chat.messages.findIdx? (fun x => x.id == 5) = none ∧
    regenerateMessage w9 5 (.stream [c8chunk]) = w9 ∧
    w9.chat.messages.findIdx? (fun x => x.id == 1) = some 1 ∧
    w9.chat.messages[1]? = some demoBot ∧
    regenerateMessage w9 1 (.stream [c8chunk]) = w9 ∧
    w9.chat.messages.findIdx? (fun x => x.id == 0) = some 0 ∧
    w9.chat.messages[0]? = some demoUser ∧
    regenerateMessage w9 0 (.stream [c8chunk]) =
      processChat { w9 with chat := { w9.chat with messages := w9.chat.messages.take 1, processingSteps := ([] : List PStep) } } demoUser.content (.stream [c8chunk]) ∧
    (∃ bm, (regenerateMessage w9 0 (.stream [c8chunk])).chat.messages =
      w9.chat.messages.take 1 ++ [bm]) := by
  have ha := C9_regenerate w9 5 (.stream [c8chunk]) 0 demoUser [c8chunk]
  have hb := C9_regenerate w9 1 (.stream [c8chunk]) 1 demoBot [c8chunk]
  have hc := C9_regenerate w9 0 (.stream [c8chunk]) 0 demoUser [c8chunk]
  exact ⟨by decide, ha.1 (by decide), by decide, rfl, hb.2.1 (by decide) rfl (by decide),
    by decide, rfl, hc.2.2.1 (by decide) rfl (by decide),
    hc.2.2.2 (by decide) rfl (by decide) rfl⟩

/-- C10 (confirmed).  Appending a message triggers `processChat` exactly when the
sender is the user, the type is `text` and no request is in flight; a bot message
(the completed answer in particular) never starts another request. -/
theorem C10_trigger (w : World) (content : JStr) (sender : Sender) (ty : MessageType)
    (files : Option (List FileObj)) (hc : Bool) (ps : Option (List PStep))
    (cits : Option Json) (f : FetchOutcome) :
    ((addMessageT w content sender ty files hc ps cits f).2 = true ↔
      sender = .user ∧ ty = .text ∧ w.processing = false) ∧
    (sender = .bot →
      (addMessageT w content sender ty files hc ps cits f).1 =
        appendMessage w content sender ty files hc ps cits ∧
      (addMessageT w content sender ty files hc ps cits f).2 = false) := by
  constructor
  · unfold addMessageT
    cases sender <;> cases ty <;> by_cases hw : w.processing <;>
      simp [appendMessage, hw]
  · intro hs
    subst hs
    unfold addMessageT
    simp [appendMessage]

theorem C10_witness :
    (addMessageT w9 (jstr "yo") .bot .markdown none false none none
        (.stream [c8chunk])).2 = false ∧
    (addMessageT w0 (jstr "hi") .user .text none false none none
        (.stream [c8chunk])).2 = true := by
  have hb := C10_trigger w9 (jstr "yo") .bot .markdown none false none none
    (.stream [c8chunk])
  have hu := C10_trigger w0 (jstr "hi") .user .text none false none none
    (.stream [c8chunk])
  exact ⟨(hb.2 rfl).2, hu.1.mpr ⟨rfl, rfl, rfl⟩⟩
